import Mathlib

/-!
# Shelly: a verification development of `main.go`

The program is embedded shallowly.  Go strings are byte sequences, so the
string helpers of the Go standard library that `main.go` calls are modelled
on lists of bytes; console output, process exit and external commands are
recorded as a trace of events.
-/

namespace Shelly

/-! ## Go strings and UTF-8 -/

/-- A Go string: an immutable sequence of bytes, each byte a number below 256. -/
abbrev GoString := List Nat

/-- Go `utf8.RuneError`, the replacement character U+FFFD. -/
def RuneError : Nat := 0xFFFD

/-- Go `utf8.EncodeRune`: the UTF-8 bytes of a rune; surrogates and values
above U+10FFFF are written as U+FFFD. -/
def EncodeRune (r : Nat) : GoString :=
  if r < 0x80 then [r]
  else if r < 0x800 then [0xC0 + r / 64, 0x80 + r % 64]
  else if (0xD800 ≤ r ∧ r ≤ 0xDFFF) ∨ 0x10FFFF < r then [0xEF, 0xBF, 0xBD]
  else if r < 0x10000 then [0xE0 + r / 4096, 0x80 + r / 64 % 64, 0x80 + r % 64]
  else [0xF0 + r / 262144, 0x80 + r / 4096 % 64, 0x80 + r / 64 % 64, 0x80 + r % 64]

/-- The bytes of a string literal, as the Go compiler stores it (UTF-8). -/
def goStr (s : String) : GoString :=
  s.data.flatMap (fun c => EncodeRune c.toNat)

/-- The table `first` of package `utf8` for a lead byte of a multi-byte
sequence: the length of the sequence and the range accepted for the second
byte.  `none` for the bytes that cannot start a multi-byte sequence. -/
def first (b : Nat) : Option (Nat × Nat × Nat) :=
  if 0xC2 ≤ b ∧ b ≤ 0xDF then some (2, 0x80, 0xBF)
  else if b = 0xE0 then some (3, 0xA0, 0xBF)
  else if 0xE1 ≤ b ∧ b ≤ 0xEC then some (3, 0x80, 0xBF)
  else if b = 0xED then some (3, 0x80, 0x9F)
  else if 0xEE ≤ b ∧ b ≤ 0xEF then some (3, 0x80, 0xBF)
  else if b = 0xF0 then some (4, 0x90, 0xBF)
  else if 0xF1 ≤ b ∧ b ≤ 0xF3 then some (4, 0x80, 0xBF)
  else if b = 0xF4 then some (4, 0x80, 0x8F)
  else none

/-- A continuation byte, `locb ≤ b ≤ hicb`. -/
def isCont (b : Nat) : Bool := 0x80 ≤ b && b ≤ 0xBF

/-- Go `utf8.DecodeRuneInString`: the first rune of the string and the number
of bytes it occupies; `(RuneError, 0)` for the empty string and
`(RuneError, 1)` for an invalid encoding. -/
def DecodeRune : GoString → Nat × Nat
  | [] => (RuneError, 0)
  | s0 :: rest =>
    if s0 < 0x80 then (s0, 1)
    else match first s0 with
      | none => (RuneError, 1)
      | some (sz, lo, hi) =>
        match rest with
        | [] => (RuneError, 1)
        | s1 :: rest1 =>
          if s1 < lo ∨ hi < s1 then (RuneError, 1)
          else if sz ≤ 2 then (s0 % 32 * 64 + s1 % 64, 2)
          else match rest1 with
            | [] => (RuneError, 1)
            | s2 :: rest2 =>
              if ¬ isCont s2 then (RuneError, 1)
              else if sz ≤ 3 then (s0 % 16 * 4096 + s1 % 64 * 64 + s2 % 64, 3)
              else match rest2 with
                | [] => (RuneError, 1)
                | s3 :: _ =>
                  if ¬ isCont s3 then (RuneError, 1)
                  else (s0 % 8 * 262144 + s1 % 64 * 4096 + s2 % 64 * 64 + s3 % 64, 4)

/-- Go `utf8.RuneStart`: the byte is not a continuation byte. -/
def RuneStart (b : Nat) : Bool := !(isCont b)

/-- The backwards search of `utf8.DecodeLastRuneInString` for the start of
the last rune: `start` runs down to `lim` and stops at a rune start. -/
def lastRuneStart (s : GoString) (lim : Int) : Nat → Int → Int
  | 0, start => start
  | fuel + 1, start =>
    if lim ≤ start then
      if RuneStart (s.getD start.toNat 0) then start
      else lastRuneStart s lim fuel (start - 1)
    else start

/-- Go `utf8.DecodeLastRuneInString`: the last rune of the string and its
width in bytes. -/
def DecodeLastRune (s : GoString) : Nat × Nat :=
  let e := s.length
  if e = 0 then (RuneError, 0)
  else
    let r := s.getD (e - 1) 0
    if r < 0x80 then (r, 1)
    else
      let lim : Int := max ((e : Int) - 4) 0
      let start := max (lastRuneStart s lim 4 ((e : Int) - 2)) 0
      let d := DecodeRune (s.drop start.toNat)
      if start.toNat + d.2 ≠ e then (RuneError, 1) else d

/-- Go `unicode.IsSpace`. -/
def IsSpace (r : Nat) : Bool :=
  if r ≤ 0xFF then
    r = 0x09 || r = 0x0A || r = 0x0B || r = 0x0C || r = 0x0D || r = 0x20 || r = 0x85 || r = 0xA0
  else
    r = 0x1680 || (0x2000 ≤ r && r ≤ 0x200A) || r = 0x2028 || r = 0x2029 || r = 0x202F
      || r = 0x205F || r = 0x3000

/-- The table `asciiSpace` of package `strings`. -/
def asciiSpace (c : Nat) : Bool :=
  c = 0x09 || c = 0x0A || c = 0x0B || c = 0x0C || c = 0x0D || c = 0x20

/-! ## Package `strings` -/

/-- The loop of `strings.TrimLeftFunc` (through `indexFunc`): runes are
decoded from the left and dropped while `f` holds. -/
def trimLeftLoop (f : Nat → Bool) : Nat → GoString → GoString
  | 0, s => s
  | _ + 1, [] => []
  | fuel + 1, c :: cs =>
    let d := DecodeRune (c :: cs)
    if f d.1 then trimLeftLoop f fuel ((c :: cs).drop d.2) else c :: cs

/-- Go `strings.TrimLeftFunc`. -/
def TrimLeftFunc (s : GoString) (f : Nat → Bool) : GoString :=
  trimLeftLoop f s.length s

/-- Go `lastIndexFunc(s, f, false)`: the byte index of the last rune, decoded
from the right, on which `f` is false; `none` stands for -1. -/
def lastIndexNot (f : Nat → Bool) (s : GoString) : Nat → Nat → Option Nat
  | 0, _ => none
  | fuel + 1, i =>
    if 0 < i then
      let d := DecodeLastRune (s.take i)
      if f d.1 = false then some (i - d.2) else lastIndexNot f s fuel (i - d.2)
    else none

/-- Go `strings.TrimRightFunc`. -/
def TrimRightFunc (s : GoString) (f : Nat → Bool) : GoString :=
  match lastIndexNot f s s.length s.length with
  | some i =>
    if 0x80 ≤ s.getD i 0 then s.take (i + (DecodeRune (s.drop i)).2) else s.take (i + 1)
  | none => []

/-- Go `strings.TrimFunc`. -/
def TrimFunc (s : GoString) (f : Nat → Bool) : GoString :=
  TrimRightFunc (TrimLeftFunc s f) f

/-- The second loop of `strings.TrimSpace`, on the reversed remainder: ASCII
spaces are dropped from the end, a non-ASCII byte hands over to
`TrimRightFunc`. -/
def trimSpaceRight : GoString → GoString
  | [] => []
  | c :: cs =>
    if 0x80 ≤ c then TrimRightFunc (c :: cs).reverse IsSpace
    else if asciiSpace c then trimSpaceRight cs
    else (c :: cs).reverse

/-- Go `strings.TrimSpace`: the first loop drops ASCII spaces from the start;
a non-ASCII byte hands over to `TrimFunc`. -/
def TrimSpace : GoString → GoString
  | [] => []
  | c :: cs =>
    if 0x80 ≤ c then TrimFunc (c :: cs) IsSpace
    else if asciiSpace c then TrimSpace cs
    else trimSpaceRight (c :: cs).reverse

/-- Go `strings.Split(s, sep)` for a separator of one byte. -/
def Split (s : GoString) (sep : Nat) : List GoString :=
  match s with
  | [] => [[]]
  | c :: cs =>
    if c = sep then [] :: Split cs sep
    else match Split cs sep with
      | [] => [[c]]
      | l :: ls => (c :: l) :: ls

/-- Go `strings.Join`. -/
def Join (elems : List GoString) (sep : GoString) : GoString :=
  match elems with
  | [] => []
  | [e] => e
  | e :: es => e ++ sep ++ Join es sep

/-- Go `strings.HasPrefix`. -/
def HasPrefix (s pre : GoString) : Bool :=
  pre.length ≤ s.length && s.take pre.length == pre

/-- Go `strings.TrimPrefix`. -/
def TrimPrefix (s pre : GoString) : GoString :=
  if HasPrefix s pre then s.drop pre.length else s

/-- Go `strings.Trim(s, cutset)` for a cutset of one ASCII byte `c`:
`trimLeftByte(trimRightByte(s, c), c)`. -/
def Trim (s : GoString) (c : Nat) : GoString :=
  (s.rdropWhile (fun b => b == c)).dropWhile (fun b => b == c)

/-- Go `(*bufio.Reader).ReadString(delim)` on a stream holding `s`: the bytes
up to and including the first `delim`, or all of them when there is none (the
error that then comes with them is what the callers discard). -/
def ReadString (delim : Nat) : GoString → GoString
  | [] => []
  | c :: cs => if c = delim then [c] else c :: ReadString delim cs

/-- Whether `f` holds of every rune of the string, the runes taken from the
left as a Go `range` loop over the string takes them. -/
def allRunes (f : Nat → Bool) : Nat → GoString → Bool
  | 0, s => s.isEmpty
  | _ + 1, [] => true
  | fuel + 1, c :: cs =>
    let d := DecodeRune (c :: cs)
    f d.1 && allRunes f fuel ((c :: cs).drop d.2)

/-- The string holds nothing but white space (`unicode.IsSpace` of every
rune); true of the empty string. -/
def onlySpace (s : GoString) : Bool := allRunes IsSpace s.length s

/-! ## The process and its environment -/

/-- What the program does to the outside world, in order. -/
inductive Event where
  | stdout (text : GoString)
  | stderr (text : GoString)
  | lookPath (file : GoString)
  | run (argv : List GoString) (stdin : GoString)
  | exit (code : Nat)
  deriving DecidableEq, Repr

/-- The part of the system `copyToClipboard` talks to: which program names
`exec.LookPath` resolves on PATH, and the error, if any, with which running a
command on a given standard input ends. -/
structure ClipEnv where
  found : GoString → Bool
  runErr : List GoString → GoString → Option GoString

/-! ## Selection and clipboard (`main.go`, lines 327-388) -/

/-- Go `copyToClipboard`: the trace of what it does and the error it returns
(`none` for `nil`). -/
def copyToClipboard (env : ClipEnv) (text : GoString) : List Event × Option GoString :=
  if env.found (goStr "xclip") then
    ([.lookPath (goStr "xclip"),
      .run [goStr "xclip", goStr "-selection", goStr "clipboard"] text],
     env.runErr [goStr "xclip", goStr "-selection", goStr "clipboard"] text)
  else if env.found (goStr "xsel") then
    ([.lookPath (goStr "xclip"), .lookPath (goStr "xsel"),
      .run [goStr "xsel", goStr "--clipboard", goStr "--input"] text],
     env.runErr [goStr "xsel", goStr "--clipboard", goStr "--input"] text)
  else if env.found (goStr "wl-copy") then
    ([.lookPath (goStr "xclip"), .lookPath (goStr "xsel"), .lookPath (goStr "wl-copy"),
      .run [goStr "wl-copy"] text],
     env.runErr [goStr "wl-copy"] text)
  else
    ([.lookPath (goStr "xclip"), .lookPath (goStr "xsel"), .lookPath (goStr "wl-copy")],
     some (goStr "no clipboard utility found (install xclip, xsel, or wl-clipboard)"))

/-- The loop of `selectAndCopyCommand` over the lines of the reply (lines
350-356): the value of `selectedCommand` when the loop is left.  The variable
starts as the empty string; the first line whose trimmed form has the prefix
`input + "."` sets it and breaks. -/
def selectLoop (input : GoString) : List GoString → GoString
  | [] => []
  | line :: rest =>
    if HasPrefix (TrimSpace line) (input ++ goStr ".") then
      TrimSpace (TrimPrefix (TrimSpace line) (input ++ goStr "."))
    else selectLoop input rest

/-- The value of `selectedCommand` at line 358 of `main.go`, for the trimmed
selection `input` and the reply `response`. -/
def selectedCommand (input response : GoString) : GoString :=
  selectLoop input (Split response 10)

/-- The selection read at lines 330-340 of `main.go`: one line from
`/dev/tty` (`tty`, `none` when it cannot be opened) or else from standard
input, trimmed. -/
def selectionInput (tty : Option GoString) (stdin : GoString) : GoString :=
  let reader := match tty with
    | some t => t
    | none => stdin
  TrimSpace (ReadString 10 reader)

/-- The prompt printed at line 328. -/
def selectPrompt : Event := .stdout (goStr "\nSelect a command (1-3): ")

/-- Lines 365-370 of `main.go`: the call of `copyToClipboard` on the selected
text, and the report of its outcome. -/
def copyAndReport (env : ClipEnv) (selected : GoString) : List Event :=
  match copyToClipboard env selected with
  | (evs, some err) =>
    evs ++ [.stderr (goStr "Error copying to clipboard: " ++ err ++ goStr "\n"), .exit 1]
  | (evs, none) =>
    evs ++ [.stdout (goStr "Command copied to clipboard: " ++ selected ++ goStr "\n")]

/-- Go `selectAndCopyCommand`. -/
def selectAndCopyCommand (env : ClipEnv) (tty : Option GoString) (stdin : GoString)
    (response : GoString) : List Event :=
  let input := selectionInput tty stdin
  if input ≠ goStr "1" ∧ input ≠ goStr "2" ∧ input ≠ goStr "3" then
    [selectPrompt, .stderr (goStr "Invalid selection. Please enter 1, 2, or 3.\n"), .exit 1]
  else
    let selected := selectedCommand input response
    if selected = [] then
      [selectPrompt, .stderr (goStr "Could not find the selected command\n"), .exit 1]
    else
      selectPrompt :: copyAndReport env (Trim selected 0x60)

/-! ## The dispatcher (`main.go`, lines 24-110) -/

/-- Go `Config`. -/
structure Config where
  APIKey : GoString
  deriving DecidableEq, Repr

/-- The command line after `flag.Parse()`: for each string flag the value it
was given, `none` when the flag is not on the command line, and the value of
the boolean flag `--init`. -/
structure Flags where
  d : Option GoString := none
  debug : Option GoString := none
  c : Option GoString := none
  command : Option GoString := none
  q : Option GoString := none
  question : Option GoString := none
  init : Bool := false

/-- The string a flag declared with `flag.String(name, "", usage)` points to
after parsing: the value given, or the default "". -/
def flagValue (o : Option GoString) : GoString :=
  match o with
  | some v => v
  | none => []

/-- What `main` does, in order: the functions it calls, what it writes to
standard error, and the exit. -/
inductive Step where
  | initializeConfig
  | printUsage
  | loadConfig
  | handleDebugMode (config : Config) (description : GoString)
  | handleCommandMode (config : Config) (request : GoString)
  | handleQuestionMode (config : Config) (question : GoString)
  | stderr (text : GoString)
  | exit (code : Nat)
  deriving DecidableEq, Repr

/-- Go `getFirstNonEmpty`. -/
def getFirstNonEmpty : List GoString → GoString
  | [] => []
  | v :: values => if v ≠ [] then v else getFirstNonEmpty values

/-- The counter `modesSet` of `main` (lines 66-75). -/
def modesSet (debug command question : GoString) : Nat :=
  (if debug ≠ [] then 1 else 0) + (if command ≠ [] then 1 else 0)
    + (if question ≠ [] then 1 else 0)

/-- Go `main`, for the parsed command line `f`; `loaded` is what `loadConfig`
returns when it is called. -/
def main (f : Flags) (loaded : Except GoString Config) : List Step :=
  if f.init then [.initializeConfig]
  else
    let debug := getFirstNonEmpty [flagValue f.d, flagValue f.debug]
    let command := getFirstNonEmpty [flagValue f.c, flagValue f.command]
    let question := getFirstNonEmpty [flagValue f.q, flagValue f.question]
    if modesSet debug command question = 0 then [.printUsage, .exit 1]
    else if modesSet debug command question > 1 then
      [.stderr (goStr "Error: Only one mode can be used at a time\n"), .exit 1]
    else
      match loaded with
      | .error err =>
        [.loadConfig, .stderr (goStr "Error loading config: " ++ err ++ goStr "\n"),
         .stderr (goStr "Run 'shelly --init' to set up your API key\n"), .exit 1]
      | .ok config =>
        if debug ≠ [] then [.loadConfig, .handleDebugMode config debug]
        else if command ≠ [] then [.loadConfig, .handleCommandMode config command]
        else if question ≠ [] then [.loadConfig, .handleQuestionMode config question]
        else [.loadConfig]

/-! ## Package `encoding/json`: writing strings -/

/-- The table `htmlSafeSet` of `encoding/json`: the ASCII bytes that
`json.Marshal` copies into a JSON string as they are. -/
def htmlSafe (b : Nat) : Bool :=
  0x20 ≤ b && b < 0x80 && b != 0x22 && b != 0x26 && b != 0x3C && b != 0x3E && b != 0x5C

/-- The digit `"0123456789abcdef"[n]`. -/
def hex (n : Nat) : Nat := if n < 10 then 0x30 + n else 0x57 + n

/-- The escape that `appendString` writes for an ASCII byte outside
`htmlSafeSet`. -/
def escapeByte (b : Nat) : GoString :=
  if b = 0x5C ∨ b = 0x22 then [0x5C, b]
  else if b = 0x08 then [0x5C, 0x62]
  else if b = 0x0C then [0x5C, 0x66]
  else if b = 0x0A then [0x5C, 0x6E]
  else if b = 0x0D then [0x5C, 0x72]
  else if b = 0x09 then [0x5C, 0x74]
  else [0x5C, 0x75, 0x30, 0x30, hex (b / 16), hex (b % 16)]

/-- The loop of `appendString` of `encoding/json` (HTML escaping on), between
the two quotes: safe bytes and valid multi-byte runes are copied, the other
ASCII bytes are escaped, an invalid byte becomes the six-byte escape of U+FFFD,
and U+2028 and U+2029 are escaped.  (An encoder that writes the three bytes of
U+FFFD for an invalid byte instead differs from this one only on strings that
are not valid UTF-8.) -/
def appendStringLoop : Nat → GoString → GoString
  | 0, _ => []
  | _ + 1, [] => []
  | fuel + 1, b :: rest =>
    if b < 0x80 then
      (if htmlSafe b then [b] else escapeByte b) ++ appendStringLoop fuel rest
    else
      let d := DecodeRune ((b :: rest).take 4)
      if d.1 = RuneError ∧ d.2 = 1 then
        goStr "\\ufffd" ++ appendStringLoop fuel rest
      else if d.1 = 0x2028 ∨ d.1 = 0x2029 then
        goStr "\\u202" ++ [hex (d.1 % 16)] ++ appendStringLoop fuel ((b :: rest).drop d.2)
      else (b :: rest).take d.2 ++ appendStringLoop fuel ((b :: rest).drop d.2)

/-- Go `appendString(dst, src, true)` of `encoding/json`: the JSON string
literal that `json.Marshal` writes for a Go string. -/
def appendString (src : GoString) : GoString :=
  [0x22] ++ appendStringLoop src.length src ++ [0x22]

/-- Go `json.MarshalIndent(config, "", "  ")` for a `Config`: the object with
the one member "api_key", on three lines.  It never fails. -/
def MarshalIndent (config : Config) : GoString :=
  goStr "\x7b\n  \"api_key\": " ++ appendString config.APIKey ++ goStr "\n\x7d"

/-! ## The chat client (`main.go`, lines 28-44 and 268-325) -/

/-- Go `Message`. -/
structure Message where
  Role : GoString
  Content : GoString
  deriving DecidableEq, Repr

/-- Go `APIRequest`. -/
structure APIRequest where
  Model : GoString
  Messages : List Message
  deriving DecidableEq, Repr

/-- The anonymous struct of the field `message` of a choice. -/
structure ChoiceMessage where
  Content : GoString
  deriving DecidableEq, Repr

/-- The anonymous struct of an element of `choices`. -/
structure Choice where
  Message : ChoiceMessage
  deriving DecidableEq, Repr

/-- Go `APIResponse`. -/
structure APIResponse where
  Choices : List Choice
  deriving DecidableEq, Repr

/-- The constant `apiURL`. -/
def apiURL : GoString := goStr "https://openrouter.ai/api/v1/chat/completions"

/-- The constant `model`. -/
def model : GoString := goStr "deepseek/deepseek-chat-v3.1:free"

/-- Go `json.Marshal` of a `Message`. -/
def marshalMessage (m : Message) : GoString :=
  goStr "\x7b\"role\":" ++ appendString m.Role ++ goStr ",\"content\":" ++
    appendString m.Content ++ goStr "\x7d"

/-- Go `json.Marshal` of an `APIRequest` whose slice of messages is not nil.
It never fails. -/
def marshalAPIRequest (r : APIRequest) : GoString :=
  goStr "\x7b\"model\":" ++ appendString r.Model ++ goStr ",\"messages\":[" ++
    Join (r.Messages.map marshalMessage) (goStr ",") ++ goStr "]\x7d"

/-- An HTTP request as `callAPI` builds it. -/
structure Request where
  method : GoString
  url : GoString
  header : List (GoString × GoString)
  body : GoString
  deriving DecidableEq, Repr

/-- An HTTP response as `callAPI` uses it: the status code, and what
`io.ReadAll(resp.Body)` returns, the body or an error. -/
structure Response where
  StatusCode : Nat
  Body : Except GoString GoString

/-- The decimal digits that the verb `%d` prints. -/
def itoa (n : Nat) : GoString := (Nat.toDigits 10 n).map Char.toNat

/-- Lines 269-292 of `main.go`: the request that `callAPI` sends for a prompt.
`json.Marshal` of an `APIRequest` and `http.NewRequest` with the constant
method and URL do not fail, so their error branches (lines 280-283 and
286-289) are never taken. -/
def buildRequest (config : Config) (prompt : GoString) : Request :=
  let reqBody : APIRequest :=
    { Model := model, Messages := [{ Role := goStr "user", Content := prompt }] }
  let jsonData := marshalAPIRequest reqBody
  { method := goStr "POST", url := apiURL,
    header := [(goStr "Content-Type", goStr "application/json"),
               (goStr "Authorization", goStr "Bearer " ++ config.APIKey)],
    body := jsonData }

/-- Go `callAPI`.  `send` stands for `client.Do`, `unmarshal` for
`json.Unmarshal` into an `APIResponse`; the result is the string returned, or
the trace with which the process exits. -/
def callAPI (send : Request → Except GoString Response)
    (unmarshal : GoString → Except GoString APIResponse)
    (config : Config) (prompt : GoString) : Except (List Event) GoString :=
  match send (buildRequest config prompt) with
  | .error err => .error [.stderr (goStr "Error making API request: " ++ err ++ goStr "\n"), .exit 1]
  | .ok resp =>
    match resp.Body with
    | .error err => .error [.stderr (goStr "Error reading response: " ++ err ++ goStr "\n"), .exit 1]
    | .ok body =>
      if resp.StatusCode ≠ 200 then
        .error [.stderr (goStr "API error (status " ++ itoa resp.StatusCode ++ goStr "): " ++
          body ++ goStr "\n"), .exit 1]
      else
        match unmarshal body with
        | .error err =>
          .error [.stderr (goStr "Error parsing response: " ++ err ++ goStr "\n"), .exit 1]
        | .ok apiResp =>
          match apiResp.Choices with
          | [] => .error [.stderr (goStr "No response from API\n"), .exit 1]
          | choice :: _ => .ok choice.Message.Content

/-! ## Piped input and the prompts (`main.go`, lines 189-262) -/

/-- The constant `bufio.MaxScanTokenSize`, the size to which the buffer of a
`bufio.Scanner` may grow. -/
def MaxScanTokenSize : Nat := 64 * 1024

/-- Go `dropCR` of package `bufio`. -/
def dropCR (data : GoString) : GoString :=
  if data.getLast? = some 0x0D then data.dropLast else data

/-- The text before the first newline and the text after it; `none` when
there is no newline. -/
def cutLine : GoString → Option (GoString × GoString)
  | [] => none
  | c :: cs =>
    if c = 0x0A then some ([], cs)
    else match cutLine cs with
      | some (l, r) => some (c :: l, r)
      | none => none

/-- The tokens that the loop `for scanner.Scan()` collects from a
`bufio.Scanner` with the split function `ScanLines` and the default buffer,
reading `data` up to its end.  A line is a token when it fits the buffer with
its newline; at the first line that does not, `Scan` fails with `ErrTooLong`,
returns false, and the loop ends. -/
def scanLines : Nat → GoString → List GoString
  | 0, _ => []
  | fuel + 1, data =>
    if data = [] then []
    else match cutLine data with
      | some (line, rest) =>
        if line.length < MaxScanTokenSize then dropCR line :: scanLines fuel rest else []
      | none =>
        if data.length < MaxScanTokenSize then [dropCR data] else []

/-- Lines 190-200 and 239-249 of `main.go`: the piped input, read when
standard input is not a character device, the empty string otherwise. -/
def pipedInput (isCharDevice : Bool) (stdin : GoString) : GoString :=
  if isCharDevice = false then Join (scanLines stdin.length stdin) (goStr "\n") else []

/-- The prompt that `handleDebugMode` builds (line 202). -/
def debugPrompt (inputCommand description : GoString) : GoString :=
  goStr "Command: " ++ inputCommand ++ goStr "\nContext: " ++ description ++
    goStr "\n\nIn one short sentence, explain what's wrong. Then provide exactly 3 alternative commands numbered 1-3. Format:\n\n[one short sentence explanation]\n\n1. [command]\n2. [command]\n3. [command]\n\nBe concise. Order from best to worst. No backticks or markdown formatting."

/-- The prompt that `handleQuestionMode` builds (lines 251-262). -/
def questionPrompt (inputContext question : GoString) : GoString :=
  if inputContext ≠ [] then
    goStr "Context: " ++ inputContext ++ goStr "\n\nQuestion: " ++ question ++
      goStr "\n\nAnswer briefly based on the context. Be concise. Include examples if helpful. Plain text only, no markdown, no code blocks, no backticks, no asterisks for bold/italic."
  else
    goStr "Answer briefly: " ++ question ++
      goStr "\n\nBe concise. Include examples if helpful. Plain text only, no markdown, no code blocks, no backticks, no asterisks for bold/italic."

/-- The prompt that `handleDebugMode` sends, for the state of standard
input and the description given on the command line. -/
def handleDebugModePrompt (isCharDevice : Bool) (stdin description : GoString) : GoString :=
  debugPrompt (pipedInput isCharDevice stdin) description

/-- The prompt that `handleQuestionMode` sends. -/
def handleQuestionModePrompt (isCharDevice : Bool) (stdin question : GoString) : GoString :=
  questionPrompt (pipedInput isCharDevice stdin) question

/-! ## Package `encoding/json`: the scanner (`scanner.go`) -/

/-- An error of `json.Unmarshal`: a `SyntaxError`, with the byte at which the
scanner stopped (`none` at the end of the input) and the context it names, or
an `UnmarshalTypeError`, with the kind of JSON value that does not fit. -/
inductive JsonError where
  | SyntaxError (c : Option Nat) (context : GoString)
  | UnmarshalTypeError (value : GoString)
  deriving DecidableEq, Repr

/-- The values `parseObjectKey`, `parseObjectValue`, `parseArrayValue`. -/
inductive ParseState where
  | parseObjectKey
  | parseObjectValue
  | parseArrayValue
  deriving DecidableEq, Repr

/-- The step functions of the scanner. -/
inductive StepFn where
  | stateBeginValueOrEmpty | stateBeginValue | stateBeginStringOrEmpty | stateBeginString
  | stateEndValue | stateEndTop
  | stateInString | stateInStringEsc | stateInStringEscU | stateInStringEscU1
  | stateInStringEscU12 | stateInStringEscU123
  | stateNeg | state1 | state0 | stateDot | stateDot0 | stateE | stateESign | stateE0
  | stateT | stateTr | stateTru | stateF | stateFa | stateFal | stateFals
  | stateN | stateNu | stateNul
  | stateError
  deriving DecidableEq, Repr

/-- The codes that a step of the scanner returns. -/
inductive Op where
  | scanContinue | scanBeginLiteral | scanBeginObject | scanObjectKey | scanObjectValue
  | scanEndObject | scanBeginArray | scanArrayValue | scanEndArray | scanSkipSpace
  | scanEnd | scanError
  deriving DecidableEq, Repr

/-- Go `scanner`: the current step function, the stack `parseState` (its top
first), the error and the flag `endTop`. -/
structure Scanner where
  step : StepFn
  parseState : List ParseState
  err : Option JsonError
  endTop : Bool
  deriving DecidableEq, Repr

/-- The constant `maxNestingDepth`. -/
def maxNestingDepth : Nat := 10000

/-- Go `isSpace` of `scanner.go`. -/
def isSpace (c : Nat) : Bool := c = 0x20 || c = 0x09 || c = 0x0D || c = 0x0A

/-- Go `(*scanner).reset`. -/
def Scanner.reset : Scanner :=
  { step := .stateBeginValue, parseState := [], err := none, endTop := false }

/-- Go `(*scanner).error`. -/
def Scanner.error (s : Scanner) (c : Nat) (context : GoString) : Op × Scanner :=
  (.scanError, { s with step := .stateError, err := some (.SyntaxError (some c) context) })

/-- Go `(*scanner).pushParseState`, after the step function has been set to
`next`. -/
def Scanner.pushParseState (s : Scanner) (c : Nat) (next : StepFn) (newParseState : ParseState)
    (successState : Op) : Op × Scanner :=
  let s1 := { s with step := next, parseState := newParseState :: s.parseState }
  if s1.parseState.length ≤ maxNestingDepth then (successState, s1)
  else s1.error c (goStr "exceeded max depth")

/-- Go `(*scanner).popParseState`. -/
def Scanner.popParseState (s : Scanner) : Scanner :=
  match s.parseState.tail with
  | [] => { s with parseState := [], step := .stateEndTop, endTop := true }
  | ps => { s with parseState := ps, step := .stateEndValue }

/-- Go `stateEndTop`. -/
def stateEndTop (s : Scanner) (c : Nat) : Op × Scanner :=
  if isSpace c then (.scanEnd, s)
  else (.scanEnd, (s.error c (goStr "after top-level value")).2)

/-- Go `stateEndValue`. -/
def stateEndValue (s : Scanner) (c : Nat) : Op × Scanner :=
  match s.parseState with
  | [] => stateEndTop { s with step := .stateEndTop, endTop := true } c
  | ps :: rest =>
    if isSpace c then (.scanSkipSpace, { s with step := .stateEndValue })
    else match ps with
      | .parseObjectKey =>
        if c = 0x3A then
          (.scanObjectKey,
            { s with parseState := .parseObjectValue :: rest, step := .stateBeginValue })
        else s.error c (goStr "after object key")
      | .parseObjectValue =>
        if c = 0x2C then
          (.scanObjectValue,
            { s with parseState := .parseObjectKey :: rest, step := .stateBeginString })
        else if c = 0x7D then (.scanEndObject, s.popParseState)
        else s.error c (goStr "after object key:value pair")
      | .parseArrayValue =>
        if c = 0x2C then (.scanArrayValue, { s with step := .stateBeginValue })
        else if c = 0x5D then (.scanEndArray, s.popParseState)
        else s.error c (goStr "after array element")

/-- Go `stateBeginValue`. -/
def stateBeginValue (s : Scanner) (c : Nat) : Op × Scanner :=
  if isSpace c then (.scanSkipSpace, s)
  else if c = 0x7B then
    s.pushParseState c .stateBeginStringOrEmpty .parseObjectKey .scanBeginObject
  else if c = 0x5B then
    s.pushParseState c .stateBeginValueOrEmpty .parseArrayValue .scanBeginArray
  else if c = 0x22 then (.scanBeginLiteral, { s with step := .stateInString })
  else if c = 0x2D then (.scanBeginLiteral, { s with step := .stateNeg })
  else if c = 0x30 then (.scanBeginLiteral, { s with step := .state0 })
  else if c = 0x74 then (.scanBeginLiteral, { s with step := .stateT })
  else if c = 0x66 then (.scanBeginLiteral, { s with step := .stateF })
  else if c = 0x6E then (.scanBeginLiteral, { s with step := .stateN })
  else if 0x31 ≤ c ∧ c ≤ 0x39 then (.scanBeginLiteral, { s with step := .state1 })
  else s.error c (goStr "looking for beginning of value")

/-- Go `stateBeginString`. -/
def stateBeginString (s : Scanner) (c : Nat) : Op × Scanner :=
  if isSpace c then (.scanSkipSpace, s)
  else if c = 0x22 then (.scanBeginLiteral, { s with step := .stateInString })
  else s.error c (goStr "looking for beginning of object key string")

/-- The test of the four `stateInStringEscU` functions for a hexadecimal
digit. -/
def isHexDigit (c : Nat) : Bool :=
  (0x30 ≤ c && c ≤ 0x39) || (0x61 ≤ c && c ≤ 0x66) || (0x41 ≤ c && c ≤ 0x46)

/-- A digit `0` to `9`. -/
def isDigit (c : Nat) : Bool := 0x30 ≤ c && c ≤ 0x39

/-- Go `state0`, also the end of `state1`. -/
def state0 (s : Scanner) (c : Nat) : Op × Scanner :=
  if c = 0x2E then (.scanContinue, { s with step := .stateDot })
  else if c = 0x65 ∨ c = 0x45 then (.scanContinue, { s with step := .stateE })
  else stateEndValue s c

/-- Go `stateESign`. -/
def stateESign (s : Scanner) (c : Nat) : Op × Scanner :=
  if isDigit c then (.scanContinue, { s with step := .stateE0 })
  else s.error c (goStr "in exponent of numeric literal")

/-- The step of a state that expects one byte of a literal `true`, `false`
or `null`. -/
def expectByte (s : Scanner) (c want : Nat) (next : StepFn) (context : GoString) :
    Op × Scanner :=
  if c = want then (.scanContinue, { s with step := next }) else s.error c context

/-- One step of the scanner, `s.step(s, c)`. -/
def Scanner.next (s : Scanner) (c : Nat) : Op × Scanner :=
  match s.step with
  | .stateBeginValueOrEmpty =>
    if isSpace c then (.scanSkipSpace, s)
    else if c = 0x5D then stateEndValue s c
    else stateBeginValue s c
  | .stateBeginValue => stateBeginValue s c
  | .stateBeginStringOrEmpty =>
    if isSpace c then (.scanSkipSpace, s)
    else if c = 0x7D then
      stateEndValue { s with parseState := .parseObjectValue :: s.parseState.tail } c
    else stateBeginString s c
  | .stateBeginString => stateBeginString s c
  | .stateEndValue => stateEndValue s c
  | .stateEndTop => stateEndTop s c
  | .stateInString =>
    if c = 0x22 then (.scanContinue, { s with step := .stateEndValue })
    else if c = 0x5C then (.scanContinue, { s with step := .stateInStringEsc })
    else if c < 0x20 then s.error c (goStr "in string literal")
    else (.scanContinue, s)
  | .stateInStringEsc =>
    if c = 0x62 ∨ c = 0x66 ∨ c = 0x6E ∨ c = 0x72 ∨ c = 0x74 ∨ c = 0x5C ∨ c = 0x2F ∨ c = 0x22
    then (.scanContinue, { s with step := .stateInString })
    else if c = 0x75 then (.scanContinue, { s with step := .stateInStringEscU })
    else s.error c (goStr "in string escape code")
  | .stateInStringEscU =>
    if isHexDigit c then (.scanContinue, { s with step := .stateInStringEscU1 })
    else s.error c (goStr "in \\u hexadecimal character escape")
  | .stateInStringEscU1 =>
    if isHexDigit c then (.scanContinue, { s with step := .stateInStringEscU12 })
    else s.error c (goStr "in \\u hexadecimal character escape")
  | .stateInStringEscU12 =>
    if isHexDigit c then (.scanContinue, { s with step := .stateInStringEscU123 })
    else s.error c (goStr "in \\u hexadecimal character escape")
  | .stateInStringEscU123 =>
    if isHexDigit c then (.scanContinue, { s with step := .stateInString })
    else s.error c (goStr "in \\u hexadecimal character escape")
  | .stateNeg =>
    if c = 0x30 then (.scanContinue, { s with step := .state0 })
    else if 0x31 ≤ c ∧ c ≤ 0x39 then (.scanContinue, { s with step := .state1 })
    else s.error c (goStr "in numeric literal")
  | .state1 =>
    if isDigit c then (.scanContinue, { s with step := .state1 }) else state0 s c
  | .state0 => state0 s c
  | .stateDot =>
    if isDigit c then (.scanContinue, { s with step := .stateDot0 })
    else s.error c (goStr "after decimal point in numeric literal")
  | .stateDot0 =>
    if isDigit c then (.scanContinue, s)
    else if c = 0x65 ∨ c = 0x45 then (.scanContinue, { s with step := .stateE })
    else stateEndValue s c
  | .stateE =>
    if c = 0x2B ∨ c = 0x2D then (.scanContinue, { s with step := .stateESign })
    else stateESign s c
  | .stateESign => stateESign s c
  | .stateE0 => if isDigit c then (.scanContinue, s) else stateEndValue s c
  | .stateT => expectByte s c 0x72 .stateTr (goStr "in literal true (expecting 'r')")
  | .stateTr => expectByte s c 0x75 .stateTru (goStr "in literal true (expecting 'u')")
  | .stateTru => expectByte s c 0x65 .stateEndValue (goStr "in literal true (expecting 'e')")
  | .stateF => expectByte s c 0x61 .stateFa (goStr "in literal false (expecting 'a')")
  | .stateFa => expectByte s c 0x6C .stateFal (goStr "in literal false (expecting 'l')")
  | .stateFal => expectByte s c 0x73 .stateFals (goStr "in literal false (expecting 's')")
  | .stateFals => expectByte s c 0x65 .stateEndValue (goStr "in literal false (expecting 'e')")
  | .stateN => expectByte s c 0x75 .stateNu (goStr "in literal null (expecting 'u')")
  | .stateNu => expectByte s c 0x6C .stateNul (goStr "in literal null (expecting 'l')")
  | .stateNul => expectByte s c 0x6C .stateEndValue (goStr "in literal null (expecting 'l')")
  | .stateError => (.scanError, s)

/-- Go `(*scanner).eof`: the error, if any, with which the input ends. -/
def Scanner.eof (s : Scanner) : Option JsonError :=
  if s.err ≠ none then s.err
  else if s.endTop then none
  else
    let s1 := (s.next 0x20).2
    if s1.endTop then none
    else if s1.err = none then
      some (.SyntaxError none (goStr "unexpected end of JSON input"))
    else s1.err

/-- The loop of `checkValid` from a state of the scanner. -/
def checkValidFrom (s : Scanner) : GoString → Option JsonError
  | [] => s.eof
  | c :: cs =>
    let r := s.next c
    if r.1 = .scanError then r.2.err else checkValidFrom r.2 cs

/-- Go `checkValid`: `none` when the data is one well-formed JSON value. -/
def checkValid (data : GoString) : Option JsonError :=
  checkValidFrom Scanner.reset data

/-! ## Package `encoding/json`: decoding (`decode.go`) -/

/-- The value of a hexadecimal digit, as `getu4` reads it. -/
def hexVal (c : Nat) : Option Nat :=
  if 0x30 ≤ c ∧ c ≤ 0x39 then some (c - 0x30)
  else if 0x61 ≤ c ∧ c ≤ 0x66 then some (c - 0x61 + 10)
  else if 0x41 ≤ c ∧ c ≤ 0x46 then some (c - 0x41 + 10)
  else none

/-- Go `getu4`: the rune of a `\uXXXX` escape at the start of `s`; `none`
stands for -1. -/
def getu4 (s : GoString) : Option Nat :=
  match s with
  | 0x5C :: 0x75 :: a :: b :: c :: d :: _ =>
    match hexVal a, hexVal b, hexVal c, hexVal d with
    | some x, some y, some z, some w => some (((x * 16 + y) * 16 + z) * 16 + w)
    | _, _, _, _ => none
  | _ => none

/-- Go `utf16.DecodeRune(r1, r2)`, with `none` for a second argument -1. -/
def utf16DecodeRune (r1 : Nat) (r2 : Option Nat) : Nat :=
  match r2 with
  | some r2 =>
    if 0xD800 ≤ r1 ∧ r1 < 0xDC00 ∧ 0xDC00 ≤ r2 ∧ r2 < 0xE000 then
      (r1 - 0xD800) * 1024 + (r2 - 0xDC00) + 0x10000
    else RuneError
  | none => RuneError

/-- The first loop of `unquoteBytes`: the longest prefix with no backslash,
quote, control byte or invalid UTF-8, and what follows it. -/
def unquoteScan : Nat → GoString → GoString × GoString
  | 0, s => ([], s)
  | _ + 1, [] => ([], [])
  | fuel + 1, c :: rest =>
    if c = 0x5C ∨ c = 0x22 ∨ c < 0x20 then ([], c :: rest)
    else if c < 0x80 then
      let r := unquoteScan fuel rest
      (c :: r.1, r.2)
    else
      let d := DecodeRune (c :: rest)
      if d.1 = RuneError ∧ d.2 = 1 then ([], c :: rest)
      else
        let r := unquoteScan fuel ((c :: rest).drop d.2)
        ((c :: rest).take d.2 ++ r.1, r.2)

/-- The second loop of `unquoteBytes`: escapes are resolved, and what is not
valid UTF-8 is replaced by U+FFFD; `none` when the text is not the inside of
a JSON string. -/
def unquoteSlow : Nat → GoString → Option GoString
  | 0, s => if s = [] then some [] else none
  | _ + 1, [] => some []
  | fuel + 1, c :: rest =>
    if c = 0x5C then
      match rest with
      | [] => none
      | e :: rest2 =>
        if e = 0x22 ∨ e = 0x5C ∨ e = 0x2F ∨ e = 0x27 then
          (unquoteSlow fuel rest2).map (fun t => e :: t)
        else if e = 0x62 then (unquoteSlow fuel rest2).map (fun t => 0x08 :: t)
        else if e = 0x66 then (unquoteSlow fuel rest2).map (fun t => 0x0C :: t)
        else if e = 0x6E then (unquoteSlow fuel rest2).map (fun t => 0x0A :: t)
        else if e = 0x72 then (unquoteSlow fuel rest2).map (fun t => 0x0D :: t)
        else if e = 0x74 then (unquoteSlow fuel rest2).map (fun t => 0x09 :: t)
        else if e = 0x75 then
          match getu4 (c :: rest) with
          | none => none
          | some rr =>
            if 0xD800 ≤ rr ∧ rr < 0xE000 then
              if utf16DecodeRune rr (getu4 (rest.drop 5)) ≠ RuneError then
                (unquoteSlow fuel (rest.drop 11)).map
                  (fun t => EncodeRune (utf16DecodeRune rr (getu4 (rest.drop 5))) ++ t)
              else (unquoteSlow fuel (rest.drop 5)).map (fun t => EncodeRune RuneError ++ t)
            else (unquoteSlow fuel (rest.drop 5)).map (fun t => EncodeRune rr ++ t)
        else none
    else if c = 0x22 ∨ c < 0x20 then none
    else if c < 0x80 then (unquoteSlow fuel rest).map (fun t => c :: t)
    else
      let d := DecodeRune (c :: rest)
      (unquoteSlow fuel ((c :: rest).drop d.2)).map (fun t => EncodeRune d.1 ++ t)

/-- Go `unquoteBytes`: the Go string that a JSON string literal, quotes
included, stands for. -/
def unquoteBytes (s : GoString) : Option GoString :=
  if s.length < 2 ∨ s.head? ≠ some 0x22 ∨ s.getLast? ≠ some 0x22 then none
  else
    let inner := (s.drop 1).dropLast
    let r := unquoteScan inner.length inner
    if r.2 = [] then some r.1
    else (unquoteSlow r.2.length r.2).map (fun t => r.1 ++ t)

/-- The string case of `rescanLiteral`: from the byte after the opening
quote, the rest of the literal up to and including the closing quote, and
what follows the literal.  `esc` is set after a backslash. -/
def stringLit : GoString → Bool → GoString × GoString
  | [], _ => ([], [])
  | c :: cs, true =>
    let r := stringLit cs false
    (c :: r.1, r.2)
  | c :: cs, false =>
    if c = 0x22 then ([c], cs)
    else
      let r := stringLit cs (c = 0x5C)
      (c :: r.1, r.2)

/-- The state of a walk over a composite value: outside a string, inside a
string, or inside a string after a backslash. -/
inductive SkipState where
  | plain
  | inString
  | inStringEsc
  deriving DecidableEq, Repr

/-- Go `(*decodeState).skip` on an object or array of well-formed JSON: from
inside `depth` open brackets, what follows the bracket that closes the
outermost one. -/
def skipNested : Nat → SkipState → GoString → GoString
  | _, _, [] => []
  | depth, .inStringEsc, _ :: cs => skipNested depth .inString cs
  | depth, .inString, c :: cs =>
    if c = 0x22 then skipNested depth .plain cs
    else if c = 0x5C then skipNested depth .inStringEsc cs
    else skipNested depth .inString cs
  | depth, .plain, c :: cs =>
    if c = 0x22 then skipNested depth .inString cs
    else if c = 0x7B ∨ c = 0x5B then skipNested (depth + 1) .plain cs
    else if c = 0x7D ∨ c = 0x5D then
      if depth ≤ 1 then cs else skipNested (depth - 1) .plain cs
    else skipNested depth .plain cs

/-- The bytes that `rescanLiteral` takes as part of a number. -/
def isNumberByte (c : Nat) : Bool :=
  isDigit c || c = 0x2E || c = 0x65 || c = 0x45 || c = 0x2B || c = 0x2D

/-- What follows the JSON value that starts `data` (well-formed JSON). -/
def skipValue (data : GoString) : GoString :=
  match data with
  | [] => []
  | c :: cs =>
    if c = 0x22 then (stringLit cs false).2
    else if c = 0x7B ∨ c = 0x5B then skipNested 1 .plain cs
    else if c = 0x74 ∨ c = 0x6E then cs.drop 3
    else if c = 0x66 then cs.drop 4
    else cs.dropWhile isNumberByte

/-- The simple case folding of `foldName`, on the runes that matter for a
field name in ASCII: the small ASCII letters to capitals, and the two runes
outside ASCII that fold to an ASCII letter, the Kelvin sign U+212A to `K` and
the long s U+017F to `S`.  The other runes fold to runes outside ASCII and
are kept. -/
def foldRune (r : Nat) : Nat :=
  if 0x61 ≤ r ∧ r ≤ 0x7A then r - 0x20
  else if r = 0x212A then 0x4B
  else if r = 0x17F then 0x53
  else r

/-- Go `foldName`. -/
def foldName : Nat → GoString → GoString
  | 0, _ => []
  | _ + 1, [] => []
  | fuel + 1, c :: rest =>
    if c < 0x80 then foldRune c :: foldName fuel rest
    else
      let d := DecodeRune (c :: rest)
      EncodeRune (foldRune d.1) ++ foldName fuel ((c :: rest).drop d.2)

/-- Whether a key of a JSON object names the field `APIKey` of `Config`
(tag `api_key`): by the exact name, or else by the folded name. -/
def isAPIKeyField (key : GoString) : Bool :=
  key == goStr "api_key" || foldName key.length key == goStr "API_KEY"

/-- The state of decoding into a `Config`: the value so far and the first
error saved by `saveError`. -/
structure DecodeState where
  config : Config
  savedError : Option JsonError
  deriving DecidableEq, Repr

/-- Go `(*decodeState).saveError`: only the first error is kept. -/
def DecodeState.saveError (d : DecodeState) (e : JsonError) : DecodeState :=
  match d.savedError with
  | none => { d with savedError := some e }
  | some _ => d

/-- The JSON value that starts `data`, stored into the string field
`APIKey`: a string sets it, `null` leaves it, any other value is an
`UnmarshalTypeError`. -/
def storeAPIKey (d : DecodeState) (data : GoString) : DecodeState :=
  match data with
  | [] => d
  | c :: cs =>
    if c = 0x22 then
      match unquoteBytes (c :: (stringLit cs false).1) with
      | some s => { d with config := { APIKey := s } }
      | none => d
    else if c = 0x6E then d
    else if c = 0x7B then d.saveError (.UnmarshalTypeError (goStr "object"))
    else if c = 0x5B then d.saveError (.UnmarshalTypeError (goStr "array"))
    else if c = 0x74 ∨ c = 0x66 then d.saveError (.UnmarshalTypeError (goStr "bool"))
    else d.saveError (.UnmarshalTypeError (goStr "number"))

/-- The members of a JSON object decoded into a `Config`, from the byte
after the opening brace or after a comma (`(*decodeState).object` for a
struct, on well-formed JSON). -/
def objectMembers : Nat → DecodeState → GoString → DecodeState
  | 0, d, _ => d
  | fuel + 1, d, data =>
    match data.dropWhile isSpace with
    | [] => d
    | c :: cs =>
      if c = 0x22 then
        let key := stringLit cs false
        match key.2.dropWhile isSpace with
        | [] => d
        | _ :: afterColon =>
          let value := afterColon.dropWhile isSpace
          let d1 :=
            match unquoteBytes (c :: key.1) with
            | some k => if isAPIKeyField k then storeAPIKey d value else d
            | none => d
          match (skipValue value).dropWhile isSpace with
          | [] => d1
          | c2 :: rest => if c2 = 0x2C then objectMembers fuel d1 rest else d1
      else d

/-- Go `(*decodeState).unmarshal` into a `*Config`, on data that
`checkValid` accepts: an object is decoded member by member, `null` changes
nothing, any other value is an `UnmarshalTypeError`. -/
def decodeConfig (d : DecodeState) (data : GoString) : DecodeState :=
  match data.dropWhile isSpace with
  | [] => d
  | c :: cs =>
    if c = 0x7B then objectMembers data.length d cs
    else if c = 0x6E then d
    else if c = 0x5B then d.saveError (.UnmarshalTypeError (goStr "array"))
    else if c = 0x22 then d.saveError (.UnmarshalTypeError (goStr "string"))
    else if c = 0x74 ∨ c = 0x66 then d.saveError (.UnmarshalTypeError (goStr "bool"))
    else d.saveError (.UnmarshalTypeError (goStr "number"))

/-- Go `json.Unmarshal(data, &config)` for a `Config` that holds `config`
before the call: the value it holds after the call, and the error returned. -/
def Unmarshal (data : GoString) (config : Config) : Config × Option JsonError :=
  match checkValid data with
  | some e => (config, some e)
  | none =>
    let d := decodeConfig { config := config, savedError := none } data
    (d.config, d.savedError)

/-! ## Package `path/filepath` (Unix) -/

/-- The state of the loop of `filepath.Clean`: the bytes written to the
buffer `out`, and the index `dotdot` below which `..` must not backtrack. -/
structure CleanState where
  out : GoString
  dotdot : Nat
  deriving DecidableEq, Repr

/-- Where the loop of `filepath.Clean` stands in the path: at the start of a
path element, inside a real element that is being copied, or before the second
dot of a `..` element. -/
inductive CleanMode where
  | start
  | inElem
  | skip
  deriving DecidableEq, Repr

/-- The inner loop of the `..` case of `filepath.Clean`, on the reversed
buffer: `out.w` goes down while it is above `dotdot` and the byte it has just
dropped, `c`, is not a separator. -/
def backtrackLoop (dotdot : Nat) : GoString → Nat → GoString
  | [], _ => []
  | b :: bs, c =>
    if dotdot < (b :: bs).length ∧ c ≠ 0x2F then backtrackLoop dotdot bs b else b :: bs

/-- The backtracking of the `..` case of `filepath.Clean`: the last element
of the buffer is dropped, with the separator before it. -/
def backtrack (out : GoString) (dotdot : Nat) : GoString :=
  match out.reverse with
  | [] => []
  | c :: r => (backtrackLoop dotdot r c).reverse

/-- What the loop of `filepath.Clean` does at a `..` element. -/
def cleanDotDot (rooted : Bool) (s : CleanState) : CleanState :=
  if s.dotdot < s.out.length then { s with out := backtrack s.out s.dotdot }
  else if rooted = false then
    { out := (if 0 < s.out.length then s.out ++ [0x2F] else s.out) ++ [0x2E, 0x2E],
      dotdot := ((if 0 < s.out.length then s.out ++ [0x2F] else s.out) ++ [0x2E, 0x2E]).length }
  else s

/-- The buffer with the separator that the loop of `filepath.Clean` writes
before a real element. -/
def withSeparator (rooted : Bool) (out : GoString) : GoString :=
  if (rooted = true ∧ out.length ≠ 1) ∨ (rooted = false ∧ out.length ≠ 0) then out ++ [0x2F]
  else out

/-- The loop of `filepath.Clean`, byte by byte: separators and `.` elements
are passed over, a `..` element backtracks or is written, any other element is
copied after a separator. -/
def cleanRun (rooted : Bool) : CleanMode → GoString → CleanState → CleanState
  | _, [], s => s
  | .skip, _ :: rest, s => cleanRun rooted .start rest s
  | .inElem, c :: rest, s =>
    if c = 0x2F then cleanRun rooted .start rest s
    else cleanRun rooted .inElem rest { s with out := s.out ++ [c] }
  | .start, c :: rest, s =>
    if c = 0x2F then cleanRun rooted .start rest s
    else if c = 0x2E ∧ (rest = [] ∨ rest.head? = some 0x2F) then cleanRun rooted .start rest s
    else if c = 0x2E ∧ rest.head? = some 0x2E ∧
        (rest.tail = [] ∨ rest.tail.head? = some 0x2F) then
      cleanRun rooted .skip rest (cleanDotDot rooted s)
    else cleanRun rooted .inElem rest { s with out := withSeparator rooted s.out ++ [c] }

/-- Go `filepath.Clean` on Unix. -/
def Clean (path : GoString) : GoString :=
  match path with
  | [] => [0x2E]
  | c :: rest =>
    let out :=
      if c = 0x2F then (cleanRun true .start rest { out := [0x2F], dotdot := 1 }).out
      else (cleanRun false .start (c :: rest) { out := [], dotdot := 0 }).out
    if out = [] then [0x2E] else out

/-- Go `filepath.Join` on Unix: the elements from the first that is not
empty, joined with a slash and cleaned. -/
def filepathJoin : List GoString → GoString
  | [] => []
  | e :: elem => if e ≠ [] then Clean (Join (e :: elem) [0x2F]) else filepathJoin elem

/-- A real path element: not empty, without a separator, and neither `.`
nor `..`. -/
def isRealElem (e : GoString) : Prop :=
  e ≠ [] ∧ 0x2F ∉ e ∧ e ≠ [0x2E] ∧ e ≠ [0x2E, 0x2E]

/-- The state in which the loop of `filepath.Clean` starts. -/
def cleanInit (rooted : Bool) : CleanState :=
  if rooted then { out := [0x2F], dotdot := 1 } else { out := [], dotdot := 0 }

/-- The states that the loop of `filepath.Clean` reaches between two path
elements: the buffer holds the leading separator of a rooted path, or else
`..` elements up to `dotdot`, and then real elements. -/
inductive CleanNormal (rooted : Bool) : CleanState → Prop where
  | init : CleanNormal rooted (cleanInit rooted)
  | dotdot (s : CleanState) :
      rooted = false → CleanNormal rooted s → s.out.length = s.dotdot →
      CleanNormal rooted (cleanDotDot rooted s)
  | real (s : CleanState) (e : GoString) :
      CleanNormal rooted s → isRealElem e →
      CleanNormal rooted { s with out := withSeparator rooted s.out ++ e }

/-! ## The config store (`main.go`, lines 17-22 and 126-187) -/

/-- The constant `configDir`. -/
def configDir : GoString := goStr ".config/shelly"

/-- The constant `configFile`. -/
def configFile : GoString := goStr "config.json"

/-- What is at a path of the file system: nothing, a file that cannot be
read (with the error of the attempt), or a file with its content. -/
inductive File where
  | absent
  | unreadable (err : GoString)
  | content (data : GoString)
  deriving DecidableEq, Repr

/-- The system as `initializeConfig` and `loadConfig` see it: what
`os.UserHomeDir` returns, the files, the error with which `os.MkdirAll` or
`os.WriteFile` fails on a path (`none` when it succeeds), and the text
`err.Error()` of an error of `json.Unmarshal`. -/
structure System where
  userHomeDir : Except GoString GoString
  files : GoString → File
  mkdirAllErr : GoString → Option GoString
  writeFileErr : GoString → Option GoString
  jsonErrorText : JsonError → GoString

/-- Go `os.ReadFile`. -/
def System.ReadFile (sys : System) (path : GoString) : Except GoString GoString :=
  match sys.files path with
  | .absent => .error (goStr "open " ++ path ++ goStr ": no such file or directory")
  | .unreadable err => .error err
  | .content data => .ok data

/-- The system after a successful `os.WriteFile(path, data, 0600)`. -/
def System.written (sys : System) (path data : GoString) : System :=
  { sys with files := fun p => if p = path then .content data else sys.files p }

/-- Go `initializeConfig`, with `stdin` on standard input: the trace, and the
system it leaves. -/
def initializeConfig (sys : System) (stdin : GoString) : List Event × System :=
  let apiKey := TrimSpace (ReadString 10 stdin)
  if apiKey = [] then
    ([.stdout (goStr "Initializing Shelly...\n"),
      .stdout (goStr "Enter your OpenRouter API key: "),
      .stderr (goStr "Error: API key cannot be empty\n"), .exit 1], sys)
  else
    let config : Config := { APIKey := apiKey }
    match sys.userHomeDir with
    | .error err =>
      ([.stdout (goStr "Initializing Shelly...\n"),
        .stdout (goStr "Enter your OpenRouter API key: "),
        .stderr (goStr "Error getting home directory: " ++ err ++ goStr "\n"), .exit 1], sys)
    | .ok homeDir =>
      let configPath := filepathJoin [homeDir, configDir]
      match sys.mkdirAllErr configPath with
      | some err =>
        ([.stdout (goStr "Initializing Shelly...\n"),
          .stdout (goStr "Enter your OpenRouter API key: "),
          .stderr (goStr "Error creating config directory: " ++ err ++ goStr "\n"), .exit 1],
         sys)
      | none =>
        let configFilePath := filepathJoin [configPath, configFile]
        let data := MarshalIndent config
        match sys.writeFileErr configFilePath with
        | some err =>
          ([.stdout (goStr "Initializing Shelly...\n"),
            .stdout (goStr "Enter your OpenRouter API key: "),
            .stderr (goStr "Error writing config file: " ++ err ++ goStr "\n"), .exit 1], sys)
        | none =>
          ([.stdout (goStr "Initializing Shelly...\n"),
            .stdout (goStr "Enter your OpenRouter API key: "),
            .stdout (goStr "Configuration saved to " ++ configFilePath ++ goStr "\n"),
            .stdout (goStr "Shelly is ready to use!\n")],
           sys.written configFilePath data)

/-- Go `loadConfig`: the config, or the text of the error returned. -/
def loadConfig (sys : System) : Except GoString Config :=
  match sys.userHomeDir with
  | .error err => .error (goStr "getting home directory: " ++ err)
  | .ok homeDir =>
    let configFilePath := filepathJoin [homeDir, configDir, configFile]
    match sys.ReadFile configFilePath with
    | .error err => .error (goStr "reading config file: " ++ err)
    | .ok data =>
      match Unmarshal data { APIKey := [] } with
      | (_, some err) => .error (goStr "parsing config file: " ++ sys.jsonErrorText err)
      | (config, none) => .ok config

/-- The loop behind `utf8.ValidString`: no rune of the string decodes as an
encoding error. -/
def validLoop : Nat → GoString → Bool
  | 0, s => s.isEmpty
  | _ + 1, [] => true
  | fuel + 1, c :: cs =>
    let d := DecodeRune (c :: cs)
    !(d.1 = RuneError && d.2 = 1) && validLoop fuel ((c :: cs).drop d.2)

/-- Go `utf8.ValidString`: the string is valid UTF-8. -/
def ValidString (s : GoString) : Bool := validLoop s.length s

/-- The inside of a JSON string literal as the scanner accepts it: bytes
from 0x20 on other than the quote and the backslash, two-byte escapes, and
`\u` escapes with four hexadecimal digits. -/
inductive Escaped : GoString → Prop where
  | nil : Escaped []
  | plain (b : Nat) (t : GoString) :
      0x20 ≤ b → b ≠ 0x22 → b ≠ 0x5C → Escaped t → Escaped (b :: t)
  | esc (x : Nat) (t : GoString) :
      (x = 0x62 ∨ x = 0x66 ∨ x = 0x6E ∨ x = 0x72 ∨ x = 0x74 ∨ x = 0x5C ∨ x = 0x2F ∨ x = 0x22) →
      Escaped t → Escaped (0x5C :: x :: t)
  | escU (a b c d : Nat) (t : GoString) :
      isHexDigit a = true → isHexDigit b = true → isHexDigit c = true → isHexDigit d = true →
      Escaped t → Escaped (0x5C :: 0x75 :: a :: b :: c :: d :: t)

/-! ## Theorems -/

theorem DecodeRune_ascii (c : Nat) (cs : GoString) (h : c < 0x80) :
    DecodeRune (c :: cs) = (c, 1) := by
  simp [DecodeRune, h]

theorem DecodeRune_size_pos (c : Nat) (cs : GoString) :
    1 ≤ (DecodeRune (c :: cs)).2 := by
  simp only [DecodeRune]
  repeat' split
  all_goals simp

theorem DecodeRune_size_le (s : GoString) :
    (DecodeRune s).2 ≤ s.length := by
  unfold DecodeRune
  repeat' split
  all_goals simp

theorem DecodeRune_append (s rest : GoString) (h : DecodeRune s ≠ (RuneError, 1))
    (hs : s ≠ []) : DecodeRune (s ++ rest) = DecodeRune s := by
  match s, hs with
  | [s0], _ =>
    simp only [DecodeRune] at h ⊢
    simp only [List.singleton_append, DecodeRune]
    repeat' split
    all_goals simp_all
  | [s0, s1], _ =>
    simp only [DecodeRune] at h ⊢
    simp only [List.cons_append, List.nil_append, DecodeRune]
    repeat' split
    all_goals simp_all
  | [s0, s1, s2], _ =>
    simp only [DecodeRune] at h ⊢
    simp only [List.cons_append, List.nil_append, DecodeRune]
    repeat' split
    all_goals simp_all
  | s0 :: s1 :: s2 :: s3 :: t, _ =>
    simp only [DecodeRune] at h ⊢
    simp only [List.cons_append, List.nil_append, DecodeRune]

theorem IsSpace_ascii (c : Nat) (h : c < 0x80) : IsSpace c = asciiSpace c := by
  have h1 : c ≤ 0xFF := by omega
  have h2 : ¬ c = 0x85 := by omega
  have h3 : ¬ c = 0xA0 := by omega
  simp [IsSpace, asciiSpace, h1, h2, h3]

theorem IsSpace_RuneError : IsSpace RuneError = false := by decide

theorem trimLeftLoop_eq_nil_iff (f : Nat → Bool) (fuel : Nat) (s : GoString) :
    trimLeftLoop f fuel s = [] ↔ allRunes f fuel s = true := by
  induction fuel generalizing s with
  | zero => simp [trimLeftLoop, allRunes]
  | succ n ih =>
    cases s with
    | nil => simp [trimLeftLoop, allRunes]
    | cons c cs =>
      simp only [trimLeftLoop, allRunes]
      by_cases hf : f (DecodeRune (c :: cs)).1 = true
      · simp [hf, ih]
      · simp [hf]

theorem trimLeftLoop_head (f : Nat → Bool) (fuel : Nat) (s : GoString)
    (h : s.length ≤ fuel) :
    trimLeftLoop f fuel s = [] ∨ f (DecodeRune (trimLeftLoop f fuel s)).1 = false := by
  induction fuel generalizing s with
  | zero =>
    left
    have : s = [] := List.length_eq_zero.mp (by omega)
    simp [trimLeftLoop, this]
  | succ n ih =>
    cases s with
    | nil => simp [trimLeftLoop]
    | cons c cs =>
      simp only [trimLeftLoop]
      by_cases hf : f (DecodeRune (c :: cs)).1 = true
      · simp only [hf, if_true]
        apply ih
        have := DecodeRune_size_pos c cs
        simp only [List.length_drop, List.length_cons] at h ⊢
        omega
      · right
        simp only [hf]
        simpa using hf

theorem lastRuneStart_le (s : GoString) (lim : Int) (fuel : Nat) (start : Int) :
    lastRuneStart s lim fuel start ≤ start := by
  induction fuel generalizing start with
  | zero => simp [lastRuneStart]
  | succ n ih =>
    simp only [lastRuneStart]
    split_ifs
    · exact le_refl _
    · have := ih (start - 1)
      omega
    · exact le_refl _

theorem DecodeLastRune_size_pos (s : GoString) (h : s ≠ []) :
    1 ≤ (DecodeLastRune s).2 := by
  have hl : s.length ≠ 0 := by simpa using h
  simp only [DecodeLastRune, hl, if_false]
  split
  · simp
  · split
    · simp
    · rename_i h1 h2
      push_neg at h2
      have h3 := lastRuneStart_le s (max ((s.length : Int) - 4) 0) 4 ((s.length : Int) - 2)
      omega

theorem DecodeLastRune_whole (t rest : GoString) (ht : t ≠ [])
    (hsz : t.length ≤ (DecodeLastRune t).2) (hr : (DecodeLastRune t).1 ≠ RuneError) :
    (DecodeRune (t ++ rest)).1 = (DecodeLastRune t).1 := by
  have hl : t.length ≠ 0 := by simpa using ht
  simp only [DecodeLastRune, hl, if_false] at hsz hr ⊢
  split_ifs at hsz hr ⊢ with h1 h2
  · simp only at hsz
    match t, ht with
    | [b], _ =>
      simp only [List.length_singleton, Nat.sub_self, List.getD_cons_zero] at h1 ⊢
      rw [List.singleton_append, DecodeRune_ascii b rest h1]
    | _ :: _ :: _, _ => simp at hsz
  · simp at hr
  · push_neg at h2
    have h3 := DecodeRune_size_le (t.drop (max (lastRuneStart t (max ((t.length : Int) - 4) 0) 4 ((t.length : Int) - 2)) 0).toNat)
    simp only [List.length_drop] at h3
    have h4 : (max (lastRuneStart t (max ((t.length : Int) - 4) 0) 4 ((t.length : Int) - 2)) 0).toNat = 0 := by
      omega
    rw [h4] at hr ⊢
    simp only [List.drop_zero] at hr ⊢
    rw [DecodeRune_append t rest _ ht]
    intro h5
    rw [h5] at hr
    exact hr rfl

theorem lastIndexNot_none (y : GoString) (fuel i : Nat)
    (h : lastIndexNot IsSpace y fuel i = none) (hi : i ≤ y.length) (hf : i ≤ fuel) :
    i = 0 ∨ IsSpace (DecodeRune y).1 = true := by
  induction fuel generalizing i with
  | zero => left; omega
  | succ n ih =>
    simp only [lastIndexNot] at h
    split_ifs at h with h1 h2
    · have ht : y.take i ≠ [] := by
        intro h0
        have := congrArg List.length h0
        simp only [List.length_take, List.length_nil] at this
        omega
      have hp := DecodeLastRune_size_pos (y.take i) ht
      have hsp : IsSpace (DecodeLastRune (y.take i)).1 = true := by simpa using h2
      rcases ih (i - (DecodeLastRune (y.take i)).2) h (by omega) (by omega) with h3 | h3
      · right
        have hne : (DecodeLastRune (y.take i)).1 ≠ RuneError := by
          intro h4
          rw [h4, IsSpace_RuneError] at hsp
          exact Bool.noConfusion hsp
        have hlen : (y.take i).length ≤ (DecodeLastRune (y.take i)).2 := by
          simp only [List.length_take]
          omega
        have := DecodeLastRune_whole (y.take i) (y.drop i) ht hlen hne
        rw [List.take_append_drop] at this
        rw [this]
        exact hsp
      · exact Or.inr h3
    · left; omega

theorem TrimRightFunc_eq_nil (y : GoString) (h : TrimRightFunc y IsSpace = []) :
    y = [] ∨ IsSpace (DecodeRune y).1 = true := by
  unfold TrimRightFunc at h
  split at h
  · rename_i i hi
    left
    split_ifs at h with hge
    · cases y with
      | nil => rfl
      | cons c cs =>
        cases hd : (DecodeRune (List.drop i (c :: cs))).2 with
        | zero =>
          cases hdr : List.drop i (c :: cs) with
          | nil =>
            have hlen : (c :: cs).length ≤ i := List.drop_eq_nil_iff.mp hdr
            rw [List.getD_eq_default _ _ hlen] at hge
            omega
          | cons a as =>
            have := DecodeRune_size_pos a as
            rw [hdr] at hd
            omega
        | succ k =>
          rw [hd] at h
          simp [← Nat.add_assoc] at h
    · cases y with
      | nil => rfl
      | cons c cs => simp at h
  · rename_i hn
    rcases lastIndexNot_none y y.length y.length hn (le_refl _) (le_refl _) with h1 | h1
    · left
      exact List.length_eq_zero.mp h1
    · exact Or.inr h1

theorem trimSpaceRight_ne_nil (r : GoString) (c : Nat) (cs : GoString)
    (hr : r.reverse = c :: cs) (hc : c < 0x80) (hns : asciiSpace c = false) :
    trimSpaceRight r ≠ [] := by
  induction r generalizing cs with
  | nil => simp at hr
  | cons b bs ih =>
    simp only [trimSpaceRight]
    split_ifs with h1 h2
    · intro h
      rcases TrimRightFunc_eq_nil _ h with h3 | h3
      · simp at h3
      · rw [hr, DecodeRune_ascii c cs hc, IsSpace_ascii c hc, hns] at h3
        exact Bool.noConfusion h3
    · cases hbs : bs.reverse with
      | nil =>
        simp only [List.reverse_cons, hbs, List.nil_append, List.cons.injEq] at hr
        rw [hr.1, hns] at h2
        exact Bool.noConfusion h2
      | cons c2 cs2 =>
        simp only [List.reverse_cons, hbs, List.cons_append, List.cons.injEq] at hr
        exact ih cs2 (by rw [hbs, hr.1])
    · simp

theorem TrimSpace_eq_nil_iff (s : GoString) : TrimSpace s = [] ↔ onlySpace s = true := by
  induction s with
  | nil => simp [TrimSpace, onlySpace, allRunes]
  | cons c cs ih =>
    simp only [TrimSpace]
    split_ifs with h1 h2
    · unfold TrimFunc TrimLeftFunc onlySpace
      rw [← trimLeftLoop_eq_nil_iff]
      constructor
      · intro h
        rcases TrimRightFunc_eq_nil _ h with h3 | h3
        · exact h3
        · rcases trimLeftLoop_head IsSpace (c :: cs).length (c :: cs) (le_refl _) with h4 | h4
          · exact h4
          · rw [h4] at h3
            exact Bool.noConfusion h3
      · intro h
        rw [h]
        rfl
    · have hc : c < 0x80 := by omega
      rw [ih]
      simp only [onlySpace, List.length_cons, allRunes, DecodeRune_ascii c cs hc,
        IsSpace_ascii c hc, h2, Bool.true_and, List.drop_succ_cons, List.drop_zero]
    · have hc : c < 0x80 := by omega
      have hns : asciiSpace c = false := by simpa using h2
      constructor
      · intro h
        exact absurd h (trimSpaceRight_ne_nil _ c cs (by simp) hc hns)
      · intro h
        simp only [onlySpace, List.length_cons, allRunes, DecodeRune_ascii c cs hc,
          IsSpace_ascii c hc, hns, Bool.false_and] at h
        exact Bool.noConfusion h

theorem selectLoop_first (input : GoString) (pre post : List GoString) (L : GoString)
    (hpre : ∀ l ∈ pre, HasPrefix (TrimSpace l) (input ++ goStr ".") = false)
    (hL : HasPrefix (TrimSpace L) (input ++ goStr ".") = true) :
    selectLoop input (pre ++ L :: post) =
      TrimSpace (TrimPrefix (TrimSpace L) (input ++ goStr ".")) := by
  induction pre with
  | nil => simp [selectLoop, hL]
  | cons a as ih =>
    have ha := hpre a (List.mem_cons_self _ _)
    simp only [List.cons_append, selectLoop, ha]
    exact ih (fun l hl => hpre l (List.mem_cons_of_mem _ hl))

theorem selectLoop_none (input : GoString) (lines : List GoString)
    (h : ∀ l ∈ lines, HasPrefix (TrimSpace l) (input ++ goStr ".") = false) :
    selectLoop input lines = [] := by
  induction lines with
  | nil => rfl
  | cons a as ih =>
    simp only [selectLoop, h a (List.mem_cons_self _ _)]
    exact ih (fun l hl => h l (List.mem_cons_of_mem _ hl))

theorem first_match_split (p : GoString → Bool) (lines : List GoString) :
    (∀ l ∈ lines, p l = false) ∨
      ∃ pre L post, lines = pre ++ L :: post ∧ (∀ l ∈ pre, p l = false) ∧ p L = true := by
  induction lines with
  | nil => left; simp
  | cons a as ih =>
    by_cases ha : p a = true
    · right
      exact ⟨[], a, as, rfl, by simp, ha⟩
    · have ha : p a = false := by simpa using ha
      rcases ih with h | ⟨pre, L, post, h1, h2, h3⟩
      · left
        intro l hl
        rcases List.mem_cons.mp hl with rfl | hl
        · exact ha
        · exact h l hl
      · right
        refine ⟨a :: pre, L, post, by rw [h1]; rfl, ?_, h3⟩
        intro l hl
        rcases List.mem_cons.mp hl with rfl | hl
        · exact ha
        · exact h2 l hl

theorem HasPrefix_append (a b : GoString) : HasPrefix (a ++ b) a = true := by
  simp [HasPrefix]

theorem TrimPrefix_append (a b : GoString) : TrimPrefix (a ++ b) a = b := by
  simp [TrimPrefix, HasPrefix_append]

theorem HasPrefix_iff (s pre : GoString) :
    HasPrefix s pre = true ↔ ∃ rest, s = pre ++ rest := by
  constructor
  · intro h
    simp only [HasPrefix, Bool.and_eq_true, decide_eq_true_eq, beq_iff_eq] at h
    refine ⟨s.drop pre.length, ?_⟩
    have h2 := List.take_append_drop pre.length s
    rw [h.2] at h2
    exact h2.symm
  · rintro ⟨rest, rfl⟩
    exact HasPrefix_append _ _

theorem copyToClipboard_events (env : ClipEnv) (text : GoString) :
    ∀ e ∈ (copyToClipboard env text).1, ∀ t, e ≠ Event.stderr t := by
  intro e he t
  unfold copyToClipboard at he
  split_ifs at he <;> simp only [List.mem_cons, List.mem_singleton, List.not_mem_nil, or_false] at he
  all_goals
    intro h
    subst h
    simp at he

theorem stderr_mem_copyAndReport (env : ClipEnv) (selected t : GoString)
    (h : Event.stderr t ∈ copyAndReport env selected) :
    ∃ err, t = goStr "Error copying to clipboard: " ++ err ++ goStr "\n" := by
  unfold copyAndReport at h
  split at h
  · rename_i evs err heq
    simp only [List.mem_append, List.mem_cons, Event.stderr.injEq, List.mem_singleton,
      reduceCtorEq, or_false, List.not_mem_nil] at h
    rcases h with h | h
    · have := copyToClipboard_events env _ (Event.stderr t) (by rw [heq]; exact h) t
      exact absurd rfl this
    · exact ⟨err, h⟩
  · rename_i evs heq
    simp only [List.mem_append, List.mem_singleton, reduceCtorEq, or_false] at h
    have := copyToClipboard_events env _ (Event.stderr t) (by rw [heq]; exact h) t
    exact absurd rfl this

theorem stderr_mem_select (env : ClipEnv) (tty : Option GoString) (stdin response t : GoString)
    (h : Event.stderr t ∈ selectAndCopyCommand env tty stdin response) :
    t = goStr "Invalid selection. Please enter 1, 2, or 3.\n" ∧
        selectionInput tty stdin ∉ [goStr "1", goStr "2", goStr "3"] ∨
      t = goStr "Could not find the selected command\n" ∧
        selectedCommand (selectionInput tty stdin) response = [] ∨
      ∃ err, t = goStr "Error copying to clipboard: " ++ err ++ goStr "\n" := by
  unfold selectAndCopyCommand at h
  simp only at h
  split_ifs at h with h1 h2
  · left
    simp [selectPrompt] at h
    exact ⟨h, by simpa using h1⟩
  · right; left
    simp [selectPrompt] at h
    exact ⟨h, h2⟩
  · right; right
    simp only [selectPrompt, List.mem_cons, reduceCtorEq, false_or] at h
    exact stderr_mem_copyAndReport env _ t h

theorem goStr_head_ne (a b : GoString) (x y : Nat) (ta tb u : GoString)
    (ha : a = x :: ta) (hb : b = y :: tb) (hxy : x ≠ y) : a ++ u ≠ b := by
  subst ha hb
  intro h
  simp only [List.cons_append, List.cons.injEq] at h
  exact hxy h.1

theorem selectedCommand_first_match_aux (input response : GoString)
    (pre post : List GoString) (L rest : GoString)
    (hsplit : Split response 10 = pre ++ L :: post)
    (hpre : ∀ l ∈ pre, HasPrefix (TrimSpace l) (input ++ goStr ".") = false)
    (hL : TrimSpace L = input ++ goStr "." ++ rest) :
    selectedCommand input response = TrimSpace rest := by
  have hL2 : HasPrefix (TrimSpace L) (input ++ goStr ".") = true := by
    rw [hL]; exact HasPrefix_append _ _
  rw [selectedCommand, hsplit, selectLoop_first input pre post L hpre hL2, hL, TrimPrefix_append]

/-- C3: when the trimmed line read as the selection is not one of "1", "2",
"3", `selectAndCopyCommand` prints the prompt once, writes the
"Invalid selection" message to standard error and exits with status 1; it
looks up and runs no clipboard utility.  When the trimmed line is one of the
three, that message is not written. -/
theorem invalid_selection (env : ClipEnv) (tty : Option GoString)
    (stdin response : GoString) :
    (selectionInput tty stdin ∉ [goStr "1", goStr "2", goStr "3"] →
      selectAndCopyCommand env tty stdin response =
        [selectPrompt, .stderr (goStr "Invalid selection. Please enter 1, 2, or 3.\n"),
          .exit 1]) ∧
    (selectionInput tty stdin ∈ [goStr "1", goStr "2", goStr "3"] →
      ∀ t, Event.stderr (goStr "Invalid selection" ++ t) ∉
        selectAndCopyCommand env tty stdin response) := by
  constructor
  · intro h
    have h' : selectionInput tty stdin ≠ goStr "1" ∧ selectionInput tty stdin ≠ goStr "2" ∧
        selectionInput tty stdin ≠ goStr "3" := by simpa using h
    simp only [selectAndCopyCommand, h', ne_eq, not_false_eq_true, and_self, if_true]
  · intro h t hmem
    rcases stderr_mem_select env tty stdin response _ hmem with ⟨_, h2⟩ | ⟨h1, _⟩ | ⟨err, h1⟩
    · exact h2 h
    · exact goStr_head_ne (goStr "Invalid selection") _ 73 67 _ _ t rfl rfl (by decide) h1
    · rw [List.append_assoc] at h1
      exact goStr_head_ne (goStr "Error copying to clipboard: ") _ 69 73 _ _ _ rfl rfl
        (by decide) h1.symm

theorem invalid_selection_witness :
    selectionInput (some (goStr " 4 \nrest")) [] ∉ [goStr "1", goStr "2", goStr "3"] ∧
      selectAndCopyCommand ⟨fun _ => true, fun _ _ => none⟩ (some (goStr " 4 \nrest")) []
          (goStr "1. a\n2. b\n3. c\n4. d") =
        [selectPrompt, .stderr (goStr "Invalid selection. Please enter 1, 2, or 3.\n"),
          .exit 1] :=
  ⟨by decide,
    (invalid_selection ⟨fun _ => true, fun _ _ => none⟩ (some (goStr " 4 \nrest")) []
      (goStr "1. a\n2. b\n3. c\n4. d")).1 (by decide)⟩

theorem selectedCommand_eq_nil_iff (s response : GoString) :
    selectedCommand s response = [] ↔
      ((∀ l ∈ Split response 10, HasPrefix (TrimSpace l) (s ++ goStr ".") = false) ∨
        ∃ pre L post, Split response 10 = pre ++ L :: post ∧
          (∀ l ∈ pre, HasPrefix (TrimSpace l) (s ++ goStr ".") = false) ∧
          HasPrefix (TrimSpace L) (s ++ goStr ".") = true ∧
          onlySpace ((TrimSpace L).drop (s ++ goStr ".").length) = true) := by
  unfold selectedCommand
  constructor
  · intro h
    rcases first_match_split (fun l => HasPrefix (TrimSpace l) (s ++ goStr "."))
      (Split response 10) with h1 | ⟨pre, L, post, h1, h2, h3⟩
    · exact Or.inl h1
    · right
      refine ⟨pre, L, post, h1, h2, h3, ?_⟩
      rw [h1, selectLoop_first s pre post L h2 h3] at h
      rw [← TrimSpace_eq_nil_iff]
      simpa [TrimPrefix, show HasPrefix (TrimSpace L) (s ++ goStr ".") = true from h3] using h
  · rintro (h | ⟨pre, L, post, h1, h2, h3, h4⟩)
    · exact selectLoop_none s _ h
    · rw [h1, selectLoop_first s pre post L h2 h3]
      rw [← TrimSpace_eq_nil_iff] at h4
      simpa [TrimPrefix, h3] using h4

/-- C10: for a valid selection `s`, `selectAndCopyCommand` reports
"Could not find the selected command" exactly when no line of the reply has a
trimmed form starting with `s + "."`, or the first such line holds nothing but
white space after that prefix (whatever the later lines are); it then exits
with status 1 and does not touch the clipboard.  The reply "2." followed by
"2. ls" with the selection "2" is such a case. -/
theorem could_not_find_iff (env : ClipEnv) (tty : Option GoString)
    (stdin response : GoString)
    (hsel : selectionInput tty stdin ∈ [goStr "1", goStr "2", goStr "3"]) :
    (Event.stderr (goStr "Could not find the selected command\n") ∈
        selectAndCopyCommand env tty stdin response ↔
      ((∀ l ∈ Split response 10,
          HasPrefix (TrimSpace l) (selectionInput tty stdin ++ goStr ".") = false) ∨
        ∃ pre L post, Split response 10 = pre ++ L :: post ∧
          (∀ l ∈ pre,
            HasPrefix (TrimSpace l) (selectionInput tty stdin ++ goStr ".") = false) ∧
          HasPrefix (TrimSpace L) (selectionInput tty stdin ++ goStr ".") = true ∧
          onlySpace ((TrimSpace L).drop (selectionInput tty stdin ++ goStr ".").length)
            = true)) ∧
    (Event.stderr (goStr "Could not find the selected command\n") ∈
        selectAndCopyCommand env tty stdin response →
      selectAndCopyCommand env tty stdin response =
        [selectPrompt, .stderr (goStr "Could not find the selected command\n"), .exit 1]) ∧
    selectAndCopyCommand env (some (goStr "2\n")) [] (goStr "2.\n2. ls") =
      [selectPrompt, .stderr (goStr "Could not find the selected command\n"), .exit 1] := by
  have hvalid : ¬ (selectionInput tty stdin ≠ goStr "1" ∧ selectionInput tty stdin ≠ goStr "2" ∧
      selectionInput tty stdin ≠ goStr "3") := by
    intro h
    simp only [List.mem_cons, List.mem_singleton, List.not_mem_nil, or_false] at hsel
    rcases hsel with h1 | h1 | h1
    · exact h.1 h1
    · exact h.2.1 h1
    · exact h.2.2 h1
  have key : Event.stderr (goStr "Could not find the selected command\n") ∈
      selectAndCopyCommand env tty stdin response ↔
      selectedCommand (selectionInput tty stdin) response = [] := by
    constructor
    · intro hmem
      rcases stderr_mem_select env tty stdin response _ hmem with ⟨_, h2⟩ | ⟨_, h2⟩ | ⟨err, h1⟩
      · exact absurd hsel h2
      · exact h2
      · rw [List.append_assoc] at h1
        exact absurd h1.symm
          (goStr_head_ne (goStr "Error copying to clipboard: ") _ 69 67 _ _ _ rfl rfl
            (by decide))
    · intro h
      simp only [selectAndCopyCommand, hvalid, if_false, h, if_true]
      simp
  refine ⟨?_, ?_, ?_⟩
  · rw [key, selectedCommand_eq_nil_iff]
  · intro hmem
    have h := key.mp hmem
    simp only [selectAndCopyCommand, hvalid, if_false, h, if_true]
  · have h1 : selectionInput (some (goStr "2\n")) [] = goStr "2" := by decide
    have h2 : selectedCommand (goStr "2") (goStr "2.\n2. ls") = [] := by decide
    have h3 : ¬ (goStr "2" ≠ goStr "1" ∧ goStr "2" ≠ goStr "2" ∧ goStr "2" ≠ goStr "3") := by
      decide
    simp only [selectAndCopyCommand, h1, h2, h3, if_false, if_true]

theorem could_not_find_iff_witness :
    selectionInput (some (goStr "1\n")) [] ∈ [goStr "1", goStr "2", goStr "3"] ∧
      (Event.stderr (goStr "Could not find the selected command\n") ∈
          selectAndCopyCommand ⟨fun _ => true, fun _ _ => none⟩ (some (goStr "1\n")) []
            (goStr "Sorry, no commands.") →
        selectAndCopyCommand ⟨fun _ => true, fun _ _ => none⟩ (some (goStr "1\n")) []
            (goStr "Sorry, no commands.") =
          [selectPrompt, .stderr (goStr "Could not find the selected command\n"), .exit 1]) :=
  ⟨by decide,
    (could_not_find_iff ⟨fun _ => true, fun _ _ => none⟩ (some (goStr "1\n")) []
      (goStr "Sorry, no commands.") (by decide)).2.1⟩

theorem trimSpaceRight_keep (b : Nat) (bs : GoString) (hb : b < 0x80)
    (hns : asciiSpace b = false) : trimSpaceRight (b :: bs) = (b :: bs).reverse := by
  have h1 : ¬ 0x80 ≤ b := by omega
  simp [trimSpaceRight, h1, hns]

theorem TrimSpace_keep (a b : Nat) (m : GoString) (ha : a < 0x80) (hb : b < 0x80)
    (hna : asciiSpace a = false) (hnb : asciiSpace b = false) :
    TrimSpace (a :: (m ++ [b])) = a :: (m ++ [b]) := by
  have h1 : ¬ 0x80 ≤ a := by omega
  have h2 : (a :: (m ++ [b])).reverse = b :: (a :: m).reverse := by simp
  simp only [TrimSpace, h1, hna, if_false, Bool.false_eq_true]
  rw [h2, trimSpaceRight_keep b _ hb hnb]
  simp

theorem Trim_wrap (c : GoString) : Trim (0x60 :: (c ++ [0x60])) 0x60 = Trim c 0x60 := by
  unfold Trim
  have h1 : (0x60 :: (c ++ [0x60])) = (0x60 :: c) ++ [0x60] := by simp
  rw [h1, List.rdropWhile_concat_pos _ _ _ (by simp)]
  induction c using List.reverseRecOn with
  | nil => simp [List.rdropWhile]
  | append_singleton l a ih =>
    by_cases ha : a = 0x60
    · subst ha
      have h2 : (0x60 :: (l ++ [0x60])) = (0x60 :: l) ++ [0x60] := by simp
      rw [h2, List.rdropWhile_concat_pos _ _ _ (by simp),
        List.rdropWhile_concat_pos _ _ _ (by simp)]
      exact ih (by simp)
    · have h2 : (0x60 :: (l ++ [a])) = (0x60 :: l) ++ [a] := by simp
      rw [h2, List.rdropWhile_concat_neg _ _ _ (by simpa using ha),
        List.rdropWhile_concat_neg _ _ _ (by simpa using ha)]
      simp

theorem Trim_self (c : GoString) (h1 : c.head? ≠ some 0x60) (h2 : c.getLast? ≠ some 0x60) :
    Trim c 0x60 = c := by
  unfold Trim
  have hr : c.rdropWhile (fun b => b == 0x60) = c := by
    rw [List.rdropWhile_eq_self_iff]
    intro hl
    rw [List.getLast?_eq_getLast _ hl] at h2
    simpa using h2
  rw [hr]
  cases c with
  | nil => rfl
  | cons a as =>
    have : (a == 0x60) = false := by simpa using h1
    simp only [List.dropWhile, this]

theorem selectAndCopyCommand_valid (env : ClipEnv) (tty : Option GoString)
    (stdin response : GoString)
    (hsel : selectionInput tty stdin ∈ [goStr "1", goStr "2", goStr "3"])
    (hne : selectedCommand (selectionInput tty stdin) response ≠ []) :
    selectAndCopyCommand env tty stdin response =
      selectPrompt ::
        copyAndReport env (Trim (selectedCommand (selectionInput tty stdin) response) 0x60) := by
  have hvalid : ¬ (selectionInput tty stdin ≠ goStr "1" ∧ selectionInput tty stdin ≠ goStr "2" ∧
      selectionInput tty stdin ≠ goStr "3") := by
    intro h
    simp only [List.mem_cons, List.mem_singleton, List.not_mem_nil, or_false] at hsel
    rcases hsel with h1 | h1 | h1
    · exact h.1 h1
    · exact h.2.1 h1
    · exact h.2.2 h1
  simp only [selectAndCopyCommand, hvalid, if_false, hne]

/-- C1 (as amended): for a valid selection, `selectAndCopyCommand` scans the
lines of the reply from the top and takes the first line whose trimmed form
starts with the selection followed by ".".  When something other than white
space follows that prefix, the text it copies to the clipboard and reports is
what follows the prefix, trimmed of white space and then of every backtick at
its start and at its end; that is the trimmed text itself whenever it neither
starts nor ends with a backtick.  When only white space follows the prefix it
reports "Could not find the selected command" and exits with status 1.  For
the reply "1. foo", "2. bar", "3. baz" and the selection "2" the text is
"bar". -/
theorem selectAndCopyCommand_first_match (env : ClipEnv) (tty : Option GoString)
    (stdin response : GoString) (pre post : List GoString) (L rest : GoString)
    (hsel : selectionInput tty stdin ∈ [goStr "1", goStr "2", goStr "3"])
    (hsplit : Split response 10 = pre ++ L :: post)
    (hpre : ∀ l ∈ pre,
      HasPrefix (TrimSpace l) (selectionInput tty stdin ++ goStr ".") = false)
    (hL : TrimSpace L = selectionInput tty stdin ++ goStr "." ++ rest) :
    (TrimSpace rest ≠ [] →
      selectAndCopyCommand env tty stdin response =
        selectPrompt :: copyAndReport env (Trim (TrimSpace rest) 0x60)) ∧
    (TrimSpace rest = [] →
      selectAndCopyCommand env tty stdin response =
        [selectPrompt, .stderr (goStr "Could not find the selected command\n"), .exit 1]) ∧
    ((TrimSpace rest).head? ≠ some 0x60 → (TrimSpace rest).getLast? ≠ some 0x60 →
      Trim (TrimSpace rest) 0x60 = TrimSpace rest) ∧
    selectAndCopyCommand env (some (goStr "2\n")) [] (goStr "1. foo\n2. bar\n3. baz") =
      selectPrompt :: copyAndReport env (goStr "bar") ∧
    selectAndCopyCommand ⟨fun _ => true, fun _ _ => none⟩ (some (goStr "2\n")) []
        (goStr "1. foo\n2. bar\n3. baz") =
      [selectPrompt, .lookPath (goStr "xclip"),
        .run [goStr "xclip", goStr "-selection", goStr "clipboard"] (goStr "bar"),
        .stdout (goStr "Command copied to clipboard: bar\n")] := by
  have h1 := selectedCommand_first_match_aux _ response pre post L rest hsplit hpre hL
  have hvalid : ¬ (selectionInput tty stdin ≠ goStr "1" ∧ selectionInput tty stdin ≠ goStr "2" ∧
      selectionInput tty stdin ≠ goStr "3") := by
    intro h
    simp only [List.mem_cons, List.mem_singleton, List.not_mem_nil, or_false] at hsel
    rcases hsel with h1 | h1 | h1
    · exact h.1 h1
    · exact h.2.1 h1
    · exact h.2.2 h1
  refine ⟨?_, ?_, Trim_self _, ?_, by decide⟩
  · intro hne
    rw [selectAndCopyCommand_valid env tty stdin response hsel (by rw [h1]; exact hne), h1]
  · intro he
    simp only [selectAndCopyCommand, hvalid, if_false, h1, he, if_true]
  · have h0 : selectionInput (some (goStr "2\n")) [] = goStr "2" := by decide
    have h2 : selectedCommand (goStr "2") (goStr "1. foo\n2. bar\n3. baz") = goStr "bar" := by
      decide
    rw [selectAndCopyCommand_valid env _ _ _ (by rw [h0]; decide) (by rw [h0, h2]; decide),
      h0, h2]
    have h3 : Trim (goStr "bar") 0x60 = goStr "bar" := by decide
    rw [h3]

theorem selectAndCopyCommand_first_match_witness :
    selectionInput (some (goStr "2\n")) [] ∈ [goStr "1", goStr "2", goStr "3"] ∧
      Split (goStr "Try these:\n 1. foo\n2.   `bar`  \n2. baz") 10 =
        [goStr "Try these:", goStr " 1. foo"] ++ goStr "2.   `bar`  " :: [goStr "2. baz"] ∧
      TrimSpace (goStr "2.   `bar`  ") =
        selectionInput (some (goStr "2\n")) [] ++ goStr "." ++ goStr "   `bar`" ∧
      TrimSpace (goStr "   `bar`") ≠ [] ∧
      Trim (TrimSpace (goStr "   `bar`")) 0x60 = goStr "bar" ∧
      selectAndCopyCommand ⟨fun _ => true, fun _ _ => none⟩ (some (goStr "2\n")) []
          (goStr "Try these:\n 1. foo\n2.   `bar`  \n2. baz") =
        selectPrompt :: copyAndReport ⟨fun _ => true, fun _ _ => none⟩
          (Trim (TrimSpace (goStr "   `bar`")) 0x60) :=
  ⟨by decide, by decide, by decide, by decide, by decide,
    (selectAndCopyCommand_first_match ⟨fun _ => true, fun _ _ => none⟩ (some (goStr "2\n")) []
      (goStr "Try these:\n 1. foo\n2.   `bar`  \n2. baz")
      [goStr "Try these:", goStr " 1. foo"] [goStr "2. baz"] (goStr "2.   `bar`  ")
      (goStr "   `bar`") (by decide) (by decide) (by decide) (by decide)).1 (by decide)⟩

/-- C1 as stated fails when the text after the prefix starts or ends with a
backtick: for the reply "1. foo", "2. `bar`", "3. baz" and the selection "2"
the line without its prefix and the surrounding white space is "`bar`", and
the text copied and reported is "bar". -/
theorem selectAndCopyCommand_first_match_counterexample :
    ¬ ∀ (env : ClipEnv) (tty : Option GoString) (stdin response : GoString)
        (pre post : List GoString) (L rest : GoString),
        selectionInput tty stdin ∈ [goStr "1", goStr "2", goStr "3"] →
        Split response 10 = pre ++ L :: post →
        (∀ l ∈ pre,
          HasPrefix (TrimSpace l) (selectionInput tty stdin ++ goStr ".") = false) →
        TrimSpace L = selectionInput tty stdin ++ goStr "." ++ rest →
        TrimSpace rest ≠ [] →
        selectAndCopyCommand env tty stdin response =
          selectPrompt :: copyAndReport env (TrimSpace rest) := by
  intro h
  have h1 := h ⟨fun _ => true, fun _ _ => none⟩ (some (goStr "2\n")) []
    (goStr "1. foo\n2. `bar`\n3. baz") [goStr "1. foo"] [goStr "3. baz"] (goStr "2. `bar`")
    (goStr " `bar`") (by decide) (by decide) (by decide) (by decide) (by decide)
  revert h1
  decide

/-- C2 (as amended): when the first matching line of the reply is the
selection, ". " and the command text `c` between two backticks,
`selectAndCopyCommand` passes to `copyToClipboard` the text `c` with every
backtick at its start and at its end removed, those of `c` itself included;
that is `c` whenever `c` neither starts nor ends with a backtick.  For the
line "3. `ls -la`" the text is "ls -la". -/
theorem backtick_wrapped (env : ClipEnv) (tty : Option GoString)
    (stdin response c : GoString) (pre post : List GoString)
    (hsel : selectionInput tty stdin ∈ [goStr "1", goStr "2", goStr "3"])
    (hsplit : Split response 10 =
      pre ++ (selectionInput tty stdin ++ goStr ". `" ++ c ++ goStr "`") :: post)
    (hpre : ∀ l ∈ pre,
      HasPrefix (TrimSpace l) (selectionInput tty stdin ++ goStr ".") = false) :
    selectAndCopyCommand env tty stdin response =
        selectPrompt :: copyAndReport env (Trim c 0x60) ∧
      (c.head? ≠ some 0x60 → c.getLast? ≠ some 0x60 → Trim c 0x60 = c) ∧
      selectAndCopyCommand env (some (goStr "3\n")) [] (goStr "1. a\n2. b\n3. `ls -la`") =
        selectPrompt :: copyAndReport env (goStr "ls -la") := by
  have hdot : goStr ". `" = [46, 32, 96] := by decide
  have hd : goStr "." = [46] := by decide
  have hq : goStr "`" = [96] := by decide
  have key : ∀ s : GoString, s ∈ [goStr "1", goStr "2", goStr "3"] →
      ∀ (pre post : List GoString) (response : GoString),
      Split response 10 = pre ++ (s ++ goStr ". `" ++ c ++ goStr "`") :: post →
      (∀ l ∈ pre, HasPrefix (TrimSpace l) (s ++ goStr ".") = false) →
      selectedCommand s response = 96 :: (c ++ [96]) := by
    intro s hs pre post response hsplit hpre
    obtain ⟨d, rfl, hd1, hd2⟩ : ∃ d, s = [d] ∧ d < 0x80 ∧ asciiSpace d = false := by
      simp only [List.mem_cons, List.mem_singleton, List.not_mem_nil, or_false] at hs
      rcases hs with h | h | h
      · exact ⟨49, by rw [h]; decide, by decide, by decide⟩
      · exact ⟨50, by rw [h]; decide, by decide, by decide⟩
      · exact ⟨51, by rw [h]; decide, by decide, by decide⟩
    have hL : TrimSpace ([d] ++ goStr ". `" ++ c ++ goStr "`") =
        [d] ++ goStr "." ++ (32 :: 96 :: (c ++ [96])) := by
      rw [hdot, hd, hq]
      have := TrimSpace_keep d 96 (46 :: 32 :: 96 :: c) hd1 (by decide) hd2 (by decide)
      simpa using this
    have h1 := (selectedCommand_first_match_aux [d] response pre post _ _ hsplit hpre hL)
    rw [h1]
    have h2 : TrimSpace (32 :: 96 :: (c ++ [96])) = TrimSpace (96 :: (c ++ [96])) := by
      simp [TrimSpace, asciiSpace]
    rw [h2, TrimSpace_keep 96 96 c (by decide) (by decide) (by decide) (by decide)]
  refine ⟨?_, Trim_self c, ?_⟩
  · have h1 := key _ hsel pre post response hsplit hpre
    rw [selectAndCopyCommand_valid env tty stdin response hsel (by rw [h1]; simp), h1,
      Trim_wrap]
  · have h0 : selectionInput (some (goStr "3\n")) [] = goStr "3" := by decide
    have h1 : selectedCommand (goStr "3") (goStr "1. a\n2. b\n3. `ls -la`") = goStr "`ls -la`" := by
      decide
    rw [selectAndCopyCommand_valid env _ _ _ (by rw [h0]; decide) (by rw [h0, h1]; decide),
      h0, h1]
    have h2 : Trim (goStr "`ls -la`") 0x60 = goStr "ls -la" := by decide
    rw [h2]

theorem backtick_wrapped_witness :
    selectionInput (some (goStr "3\n")) [] ∈ [goStr "1", goStr "2", goStr "3"] ∧
      Split (goStr "1. pwd\n3. `ls -la`\n") 10 =
        [goStr "1. pwd"] ++
          (selectionInput (some (goStr "3\n")) [] ++ goStr ". `" ++ goStr "ls -la" ++ goStr "`")
            :: [[]] ∧
      selectAndCopyCommand ⟨fun _ => true, fun _ _ => none⟩ (some (goStr "3\n")) []
          (goStr "1. pwd\n3. `ls -la`\n") =
        selectPrompt ::
          copyAndReport ⟨fun _ => true, fun _ _ => none⟩ (Trim (goStr "ls -la") 0x60) :=
  ⟨by decide, by decide,
    (backtick_wrapped ⟨fun _ => true, fun _ _ => none⟩ (some (goStr "3\n")) []
      (goStr "1. pwd\n3. `ls -la`\n") (goStr "ls -la") [goStr "1. pwd"] [[]]
      (by decide) (by decide) (by decide)).1⟩

/-- C2 as stated fails when the command text itself starts or ends with a
backtick: for the line "3. ``ls``", that is `c` = "`ls`" between two
backticks, the text passed to `copyToClipboard` is "ls", not `c`. -/
theorem backtick_wrapped_counterexample :
    ¬ ∀ (env : ClipEnv) (tty : Option GoString) (stdin response c : GoString)
        (pre post : List GoString),
        selectionInput tty stdin ∈ [goStr "1", goStr "2", goStr "3"] →
        Split response 10 =
          pre ++ (selectionInput tty stdin ++ goStr ". `" ++ c ++ goStr "`") :: post →
        (∀ l ∈ pre,
          HasPrefix (TrimSpace l) (selectionInput tty stdin ++ goStr ".") = false) →
        selectAndCopyCommand env tty stdin response = selectPrompt :: copyAndReport env c := by
  intro h
  have h1 := h ⟨fun _ => true, fun _ _ => none⟩ (some (goStr "3\n")) [] (goStr "3. ``ls``")
    (goStr "`ls`") [] [] (by decide) (by decide) (by decide)
  revert h1
  decide

/-- C8 (as amended): `copyToClipboard` looks on PATH for xclip, then xsel,
then wl-copy, and runs the first one found with the text on its standard
input; a later utility is run only when every earlier one is absent.  When
none is found it runs nothing and returns an error that names xclip, xsel and
wl-clipboard (the package, not the utility wl-copy), and the caller reports it
and exits with status 1. -/
theorem copyToClipboard_priority (env : ClipEnv) (text : GoString) :
    (env.found (goStr "xclip") = true →
      copyToClipboard env text =
        ([.lookPath (goStr "xclip"),
          .run [goStr "xclip", goStr "-selection", goStr "clipboard"] text],
         env.runErr [goStr "xclip", goStr "-selection", goStr "clipboard"] text)) ∧
    (env.found (goStr "xclip") = false → env.found (goStr "xsel") = true →
      copyToClipboard env text =
        ([.lookPath (goStr "xclip"), .lookPath (goStr "xsel"),
          .run [goStr "xsel", goStr "--clipboard", goStr "--input"] text],
         env.runErr [goStr "xsel", goStr "--clipboard", goStr "--input"] text)) ∧
    (env.found (goStr "xclip") = false → env.found (goStr "xsel") = false →
      env.found (goStr "wl-copy") = true →
      copyToClipboard env text =
        ([.lookPath (goStr "xclip"), .lookPath (goStr "xsel"), .lookPath (goStr "wl-copy"),
          .run [goStr "wl-copy"] text],
         env.runErr [goStr "wl-copy"] text)) ∧
    (env.found (goStr "xclip") = false → env.found (goStr "xsel") = false →
      env.found (goStr "wl-copy") = false →
      copyToClipboard env text =
          ([.lookPath (goStr "xclip"), .lookPath (goStr "xsel"), .lookPath (goStr "wl-copy")],
           some (goStr "no clipboard utility found (install xclip, xsel, or wl-clipboard)")) ∧
        copyAndReport env text =
          [.lookPath (goStr "xclip"), .lookPath (goStr "xsel"), .lookPath (goStr "wl-copy"),
           .stderr (goStr "Error copying to clipboard: " ++
              goStr "no clipboard utility found (install xclip, xsel, or wl-clipboard)" ++
              goStr "\n"),
           .exit 1]) ∧
    goStr "xclip" <:+: goStr "no clipboard utility found (install xclip, xsel, or wl-clipboard)" ∧
    goStr "xsel" <:+: goStr "no clipboard utility found (install xclip, xsel, or wl-clipboard)" ∧
    goStr "wl-clipboard" <:+:
      goStr "no clipboard utility found (install xclip, xsel, or wl-clipboard)" := by
  refine ⟨?_, ?_, ?_, ?_, by decide, by decide, by decide⟩
  · intro h1
    simp [copyToClipboard, h1]
  · intro h1 h2
    simp [copyToClipboard, h1, h2]
  · intro h1 h2 h3
    simp [copyToClipboard, h1, h2, h3]
  · intro h1 h2 h3
    simp [copyToClipboard, copyAndReport, h1, h2, h3]

theorem copyToClipboard_priority_witness :
    (fun n : GoString => n == goStr "wl-copy") (goStr "xclip") = false ∧
      (fun n : GoString => n == goStr "wl-copy") (goStr "xsel") = false ∧
      (fun n : GoString => n == goStr "wl-copy") (goStr "wl-copy") = true ∧
      copyToClipboard ⟨fun n => n == goStr "wl-copy", fun _ _ => none⟩ (goStr "ls") =
        ([.lookPath (goStr "xclip"), .lookPath (goStr "xsel"), .lookPath (goStr "wl-copy"),
          .run [goStr "wl-copy"] (goStr "ls")], none) :=
  ⟨by decide, by decide, by decide,
    (copyToClipboard_priority ⟨fun n => n == goStr "wl-copy", fun _ _ => none⟩
      (goStr "ls")).2.2.1 (by decide) (by decide) (by decide)⟩

/-- C8 as stated fails in its last part: when none of xclip, xsel and wl-copy
is found, the error that `copyToClipboard` returns does not contain the name
"wl-copy". -/
theorem copyToClipboard_names_counterexample :
    ¬ ∀ (env : ClipEnv) (text : GoString),
        env.found (goStr "xclip") = false → env.found (goStr "xsel") = false →
        env.found (goStr "wl-copy") = false →
        ∃ err, (copyToClipboard env text).2 = some err ∧ goStr "xclip" <:+: err ∧
          goStr "xsel" <:+: err ∧ goStr "wl-copy" <:+: err := by
  intro h
  obtain ⟨err, h1, _, _, h2⟩ := h ⟨fun _ => false, fun _ _ => none⟩ [] rfl rfl rfl
  have h3 : err = goStr "no clipboard utility found (install xclip, xsel, or wl-clipboard)" := by
    simpa [copyToClipboard] using h1.symm
  rw [h3] at h2
  revert h2
  decide

theorem getFirstNonEmpty_ne_nil (a b : Option GoString)
    (h : ∃ v, v ≠ [] ∧ (a = some v ∨ b = some v)) :
    getFirstNonEmpty [flagValue a, flagValue b] ≠ [] := by
  obtain ⟨v, hv, h | h⟩ := h
  · subst h
    simp [getFirstNonEmpty, flagValue, hv]
  · subst h
    cases a with
    | none => simp [getFirstNonEmpty, flagValue, hv]
    | some w =>
      by_cases hw : w = []
      · simp [getFirstNonEmpty, flagValue, hv, hw]
      · simp [getFirstNonEmpty, flagValue, hw]

/-- C4 (as amended): without `--init`, when two or more of the three modes
are given a non-empty text (debug by `-d` or `--debug`, command by `-c` or
`--command`, question by `-q` or `--question`), `main` writes
"Error: Only one mode can be used at a time" to standard error and exits with
status 1; it neither loads the config nor runs a mode handler. -/
theorem only_one_mode (f : Flags) (loaded : Except GoString Config)
    (hinit : f.init = false)
    (h : ((∃ v, v ≠ [] ∧ (f.d = some v ∨ f.debug = some v)) ∧
          (∃ v, v ≠ [] ∧ (f.c = some v ∨ f.command = some v))) ∨
        ((∃ v, v ≠ [] ∧ (f.d = some v ∨ f.debug = some v)) ∧
          (∃ v, v ≠ [] ∧ (f.q = some v ∨ f.question = some v))) ∨
        ((∃ v, v ≠ [] ∧ (f.c = some v ∨ f.command = some v)) ∧
          (∃ v, v ≠ [] ∧ (f.q = some v ∨ f.question = some v)))) :
    main f loaded =
        [.stderr (goStr "Error: Only one mode can be used at a time\n"), .exit 1] ∧
      goStr "one mode" <:+: goStr "Error: Only one mode can be used at a time\n" := by
  refine ⟨?_, by decide⟩
  simp only [main, hinit, Bool.false_eq_true, if_false]
  rcases h with ⟨h1, h2⟩ | ⟨h1, h2⟩ | ⟨h1, h2⟩
  · have a1 := getFirstNonEmpty_ne_nil _ _ h1
    have a2 := getFirstNonEmpty_ne_nil _ _ h2
    have h0 : modesSet (getFirstNonEmpty [flagValue f.d, flagValue f.debug])
        (getFirstNonEmpty [flagValue f.c, flagValue f.command])
        (getFirstNonEmpty [flagValue f.q, flagValue f.question]) > 1 := by
      simp only [modesSet, a1, a2, ne_eq, not_false_eq_true, if_true]
      omega
    rw [if_neg (by omega), if_pos h0]
  · have a1 := getFirstNonEmpty_ne_nil _ _ h1
    have a2 := getFirstNonEmpty_ne_nil _ _ h2
    have h0 : modesSet (getFirstNonEmpty [flagValue f.d, flagValue f.debug])
        (getFirstNonEmpty [flagValue f.c, flagValue f.command])
        (getFirstNonEmpty [flagValue f.q, flagValue f.question]) > 1 := by
      simp only [modesSet, a1, a2, ne_eq, not_false_eq_true, if_true]
      split_ifs <;> omega
    rw [if_neg (by omega), if_pos h0]
  · have a1 := getFirstNonEmpty_ne_nil _ _ h1
    have a2 := getFirstNonEmpty_ne_nil _ _ h2
    have h0 : modesSet (getFirstNonEmpty [flagValue f.d, flagValue f.debug])
        (getFirstNonEmpty [flagValue f.c, flagValue f.command])
        (getFirstNonEmpty [flagValue f.q, flagValue f.question]) > 1 := by
      simp only [modesSet, a1, a2, ne_eq, not_false_eq_true, if_true]
      split_ifs <;> omega
    rw [if_neg (by omega), if_pos h0]

theorem only_one_mode_witness :
    ({ debug := some (goStr "x"), q := some (goStr "why") } : Flags).init = false ∧
      main { debug := some (goStr "x"), q := some (goStr "why") } (.ok ⟨goStr "k"⟩) =
        [.stderr (goStr "Error: Only one mode can be used at a time\n"), .exit 1] :=
  ⟨rfl,
    (only_one_mode { debug := some (goStr "x"), q := some (goStr "why") } (.ok ⟨goStr "k"⟩) rfl
      (Or.inr (Or.inl ⟨⟨goStr "x", by decide, Or.inr rfl⟩,
        ⟨goStr "why", by decide, Or.inl rfl⟩⟩))).1⟩

/-- C4 as stated fails when a mode flag is given the empty text: for
`shelly -d "" -c "ls"` two modes are supplied, and `main` loads the config and
runs the command mode. -/
theorem only_one_mode_counterexample :
    ¬ ∀ (f : Flags) (loaded : Except GoString Config), f.init = false →
        (((f.d.isSome ∨ f.debug.isSome) ∧ (f.c.isSome ∨ f.command.isSome)) ∨
          ((f.d.isSome ∨ f.debug.isSome) ∧ (f.q.isSome ∨ f.question.isSome)) ∨
          ((f.c.isSome ∨ f.command.isSome) ∧ (f.q.isSome ∨ f.question.isSome))) →
        main f loaded =
          [.stderr (goStr "Error: Only one mode can be used at a time\n"), .exit 1] := by
  intro h
  have h1 := h { d := some [], c := some (goStr "ls") } (.ok ⟨goStr "k"⟩) rfl
    (Or.inl ⟨Or.inl rfl, Or.inl rfl⟩)
  revert h1
  decide

/-- C5 (as amended): for every HTTP response that `callAPI` receives and
reads: when the status is 200 and the body parses with a non-empty `choices`,
`callAPI` returns the message content of the first element, whatever the
other elements are; when the status is anything but 200 (another 2xx status
included) it exits with status 1 after a message with the status code and the
raw body; when the status is 200 and the body does not parse, or `choices` is
empty, it exits with status 1. -/
theorem callAPI_response (send : Request → Except GoString Response)
    (unmarshal : GoString → Except GoString APIResponse)
    (config : Config) (prompt : GoString) (code : Nat) (body : GoString)
    (hresp : send (buildRequest config prompt) = .ok ⟨code, .ok body⟩) :
    (code = 200 → ∀ (resp : APIResponse) (c0 : Choice) (rest : List Choice),
      unmarshal body = .ok resp → resp.Choices = c0 :: rest →
      callAPI send unmarshal config prompt = .ok c0.Message.Content) ∧
    (code ≠ 200 →
      callAPI send unmarshal config prompt =
        .error [.stderr (goStr "API error (status " ++ itoa code ++ goStr "): " ++ body ++
          goStr "\n"), .exit 1]) ∧
    (code = 200 → ∀ err, unmarshal body = .error err →
      callAPI send unmarshal config prompt =
        .error [.stderr (goStr "Error parsing response: " ++ err ++ goStr "\n"), .exit 1]) ∧
    (code = 200 → ∀ resp : APIResponse, unmarshal body = .ok resp → resp.Choices = [] →
      callAPI send unmarshal config prompt =
        .error [.stderr (goStr "No response from API\n"), .exit 1]) := by
  refine ⟨?_, ?_, ?_, ?_⟩
  · intro hc resp c0 rest hu hch
    simp only [callAPI, hresp, hc, ne_eq, not_true_eq_false, if_false, hu, hch]
  · intro hc
    simp only [callAPI, hresp, ne_eq, hc, not_false_eq_true, if_true]
  · intro hc err hu
    simp only [callAPI, hresp, hc, ne_eq, not_true_eq_false, if_false, hu]
  · intro hc resp hu hch
    simp only [callAPI, hresp, hc, ne_eq, not_true_eq_false, if_false, hu, hch]

theorem callAPI_response_witness :
    (404 : Nat) ≠ 200 ∧
      callAPI (fun _ => .ok ⟨404, .ok (goStr "Not Found")⟩) (fun _ => .error (goStr "EOF"))
          ⟨goStr "key"⟩ (goStr "hi") =
        .error [.stderr (goStr "API error (status 404): Not Found\n"), .exit 1] :=
  ⟨by decide,
    (callAPI_response (fun _ => .ok ⟨404, .ok (goStr "Not Found")⟩)
      (fun _ => .error (goStr "EOF")) ⟨goStr "key"⟩ (goStr "hi") 404 (goStr "Not Found")
      rfl).2.1 (by decide)⟩

/-- C5 as stated fails for a 2xx status other than 200: with status 201 and
a body that parses with one choice, `callAPI` does not return the content, it
exits. -/
theorem callAPI_2xx_counterexample :
    ¬ ∀ (send : Request → Except GoString Response)
        (unmarshal : GoString → Except GoString APIResponse)
        (config : Config) (prompt : GoString) (code : Nat) (body : GoString)
        (resp : APIResponse) (c0 : Choice) (rest : List Choice),
        send (buildRequest config prompt) = .ok ⟨code, .ok body⟩ →
        200 ≤ code ∧ code < 300 →
        unmarshal body = .ok resp → resp.Choices = c0 :: rest →
        callAPI send unmarshal config prompt = .ok c0.Message.Content := by
  intro h
  have h1 := h (fun _ => .ok ⟨201, .ok (goStr "body")⟩) (fun _ => .ok ⟨[⟨⟨goStr "ls"⟩⟩]⟩)
    ⟨goStr "key"⟩ (goStr "hi") 201 (goStr "body") ⟨[⟨⟨goStr "ls"⟩⟩]⟩ ⟨⟨goStr "ls"⟩⟩ []
    rfl (by decide) rfl rfl
  simp [callAPI] at h1

theorem cutLine_replicate (n : Nat) (rest : GoString) :
    cutLine (List.replicate n 0x61 ++ 0x0A :: rest) = some (List.replicate n 0x61, rest) := by
  induction n with
  | zero => simp [cutLine]
  | succ k ih => simp [List.replicate_succ, cutLine, ih]

theorem pipedInput_long_first_line (n : Nat) (rest : GoString) (hn : MaxScanTokenSize ≤ n) :
    pipedInput false (List.replicate n 0x61 ++ 0x0A :: rest) = [] := by
  have hne : List.replicate n 0x61 ++ 0x0A :: rest ≠ [] := by simp
  have hlen : (List.replicate n 0x61 ++ 0x0A :: rest).length = (n + rest.length) + 1 := by
    simp only [List.length_append, List.length_replicate, List.length_cons]
    omega
  have hlt : ¬ n < MaxScanTokenSize := by omega
  rw [pipedInput, hlen]
  simp only [if_true, scanLines, hne, if_false, cutLine_replicate, List.length_replicate, hlt]
  rfl

/-- C7 at a failing input: when the first line piped into debug mode is 65536
bytes long, the `bufio.Scanner` gives up at that line, the loop collects no
line at all, and the prompt is built with the empty string in place of the
piped text, which is not the lines received joined with a newline (the long
line, a newline and "ls").  For the piped lines "a", "b", "c" the text is
"a\nb\nc". -/
theorem piped_input_too_long (description : GoString) :
    pipedInput false (List.replicate 65536 0x61 ++ goStr "\nls\n") = [] ∧
      handleDebugModePrompt false (List.replicate 65536 0x61 ++ goStr "\nls\n") description =
        debugPrompt [] description ∧
      pipedInput false (List.replicate 65536 0x61 ++ goStr "\nls\n") ≠
        List.replicate 65536 0x61 ++ goStr "\nls" ∧
      pipedInput false (goStr "a\nb\nc\n") = goStr "a\nb\nc" := by
  have h1 : pipedInput false (List.replicate 65536 0x61 ++ goStr "\nls\n") = [] := by
    have hs : goStr "\nls\n" = 0x0A :: goStr "ls\n" := by decide
    rw [hs]
    exact pipedInput_long_first_line 65536 _ (by decide)
  refine ⟨h1, ?_, ?_, by decide⟩
  · rw [handleDebugModePrompt, h1]
  · rw [h1]
    intro h
    have h2 := congrArg List.length h
    rw [List.length_append, List.length_replicate, List.length_nil] at h2
    omega

theorem DecodeRune_take4 (s : GoString) : DecodeRune (s.take 4) = DecodeRune s := by
  match s with
  | [] => rfl
  | [_] => rfl
  | [_, _] => rfl
  | [_, _, _] => rfl
  | a :: b :: c :: d :: t => simp [DecodeRune]

theorem first_cases {c sz lo hi : Nat} (h : first c = some (sz, lo, hi)) :
    (sz = 2 ∧ lo = 0x80 ∧ hi = 0xBF ∧ 0xC2 ≤ c ∧ c ≤ 0xDF) ∨
    (sz = 3 ∧ ((c = 0xE0 ∧ lo = 0xA0 ∧ hi = 0xBF) ∨ (0xE1 ≤ c ∧ c ≤ 0xEC ∧ lo = 0x80 ∧ hi = 0xBF)
      ∨ (c = 0xED ∧ lo = 0x80 ∧ hi = 0x9F) ∨ (0xEE ≤ c ∧ c ≤ 0xEF ∧ lo = 0x80 ∧ hi = 0xBF))) ∨
    (sz = 4 ∧ ((c = 0xF0 ∧ lo = 0x90 ∧ hi = 0xBF) ∨ (0xF1 ≤ c ∧ c ≤ 0xF3 ∧ lo = 0x80 ∧ hi = 0xBF)
      ∨ (c = 0xF4 ∧ lo = 0x80 ∧ hi = 0x8F))) := by
  unfold first at h
  split_ifs at h <;> simp only [Option.some.injEq, Prod.mk.injEq, reduceCtorEq] at h <;>
    obtain ⟨rfl, rfl, rfl⟩ := h <;> omega

theorem EncodeRune_DecodeRune (c : Nat) (rest : GoString) (hc : 0x80 ≤ c)
    (hv : ¬ ((DecodeRune (c :: rest)).1 = RuneError ∧ (DecodeRune (c :: rest)).2 = 1)) :
    EncodeRune (DecodeRune (c :: rest)).1 = (c :: rest).take (DecodeRune (c :: rest)).2 := by
  have hc' : ¬ c < 0x80 := by omega
  cases hf : first c with
  | none => simp [DecodeRune, hc', hf] at hv
  | some t =>
    obtain ⟨sz, lo, hi⟩ := t
    simp only [DecodeRune, hc', if_false, hf] at hv ⊢
    have hfc := first_cases hf
    match rest with
    | [] => simp at hv
    | s1 :: rest1 =>
      simp only at hv ⊢
      by_cases h1 : s1 < lo ∨ hi < s1
      · simp [h1] at hv
      · simp only [h1, if_false] at hv ⊢
        push_neg at h1
        by_cases h2 : sz ≤ 2
        · simp only [h2, if_true] at hv ⊢
          simp only [EncodeRune]
          rw [if_neg (by omega), if_pos (by omega)]
          simp only [List.take_succ_cons, List.take_zero, List.cons.injEq, and_true]
          omega
        · simp only [h2, if_false] at hv ⊢
          match rest1 with
          | [] => simp at hv
          | s2 :: rest2 =>
            simp only at hv ⊢
            by_cases h3 : isCont s2 = true
            · simp only [h3, not_true_eq_false, if_false] at hv ⊢
              have h3' : 0x80 ≤ s2 ∧ s2 ≤ 0xBF := by simpa [isCont] using h3
              by_cases h4 : sz ≤ 3
              · simp only [h4, if_true] at hv ⊢
                simp only [EncodeRune]
                rw [if_neg (by omega), if_neg (by omega), if_neg (by omega), if_pos (by omega)]
                simp only [List.take_succ_cons, List.take_zero, List.cons.injEq, and_true]
                omega
              · simp only [h4, if_false] at hv ⊢
                match rest2 with
                | [] => simp at hv
                | s3 :: rest3 =>
                  simp only at hv ⊢
                  by_cases h5 : isCont s3 = true
                  · simp only [h5, not_true_eq_false, if_false] at hv ⊢
                    have h5' : 0x80 ≤ s3 ∧ s3 ≤ 0xBF := by simpa [isCont] using h5
                    simp only [EncodeRune]
                    rw [if_neg (by omega), if_neg (by omega), if_neg (by omega),
                      if_neg (by omega)]
                    simp only [List.take_succ_cons, List.take_zero, List.cons.injEq, and_true]
                    omega
                  · simp [h5] at hv
            · simp [h3] at hv

theorem checkValidFrom_prefix (x : GoString) :
    checkValidFrom Scanner.reset (goStr "\x7b\n  \"api_key\": \"" ++ x) =
      checkValidFrom ⟨.stateInString, [.parseObjectValue], none, false⟩ x := by
  rfl

theorem checkValidFrom_suffix :
    checkValidFrom ⟨.stateInString, [.parseObjectValue], none, false⟩ (goStr "\"\n\x7d") = none := by
  rfl

theorem checkValidFrom_escaped (ps : List ParseState) (et : Bool) (e x : GoString)
    (he : Escaped e) :
    checkValidFrom ⟨.stateInString, ps, none, et⟩ (e ++ x) =
      checkValidFrom ⟨.stateInString, ps, none, et⟩ x := by
  induction he with
  | nil => rfl
  | plain b t h1 h2 h3 _ ih =>
    have h4 : ¬ b < 0x20 := by omega
    simp only [List.cons_append, checkValidFrom, Scanner.next, h2, h3, h4, if_false,
      reduceCtorEq]
    exact ih
  | esc c t hc _ ih =>
    simp only [List.cons_append, checkValidFrom, Scanner.next, if_true, if_false, reduceCtorEq,
      hc, Nat.reduceEqDiff]
    exact ih
  | escU a b c d t ha hb hc hd _ ih =>
    simp only [List.cons_append, checkValidFrom, Scanner.next, if_true, if_false, reduceCtorEq,
      ha, hb, hc, hd, Nat.reduceEqDiff]
    simp
    exact ih

theorem stringLit_escaped (e tail : GoString) (he : Escaped e) :
    stringLit (e ++ 0x22 :: tail) false = (e ++ [0x22], tail) := by
  induction he with
  | nil => simp [stringLit]
  | plain b t h1 h2 h3 _ ih =>
    simp only [List.cons_append, stringLit, h2, h3, if_false, decide_False, List.append_eq, ih]
  | esc c t hc _ ih =>
    simp only [List.cons_append, stringLit, Nat.reduceEqDiff, if_false, decide_True, List.append_eq, ih]
  | escU a b c d t ha hb hc hd _ ih =>
    have h1 : ∀ z, isHexDigit z = true → z ≠ 0x22 ∧ z ≠ 0x5C := by
      intro z hz
      simp only [isHexDigit, Bool.or_eq_true, Bool.and_eq_true, decide_eq_true_eq] at hz
      omega
    have ha' := h1 a ha
    have hb' := h1 b hb
    have hc' := h1 c hc
    have hd' := h1 d hd
    simp only [List.cons_append, stringLit, Nat.reduceEqDiff, if_false, decide_True, List.append_eq, ih,
      ha'.1, ha'.2, hb'.1, hb'.2, hc'.1, hc'.2, hd'.1, hd'.2, decide_False]

theorem EncodeRune_bytes (r : Nat) (hr : 0x80 ≤ r) : ∀ b ∈ EncodeRune r, 0x80 ≤ b := by
  intro b hb
  unfold EncodeRune at hb
  split_ifs at hb <;> simp only [List.mem_cons, List.mem_singleton, List.not_mem_nil, or_false] at hb <;>
    omega

theorem DecodeRune_bytes (c : Nat) (rest : GoString) (hc : 0x80 ≤ c)
    (hv : ¬ ((DecodeRune (c :: rest)).1 = RuneError ∧ (DecodeRune (c :: rest)).2 = 1)) :
    ∀ b ∈ (c :: rest).take (DecodeRune (c :: rest)).2, 0x80 ≤ b := by
  rw [← EncodeRune_DecodeRune c rest hc hv]
  apply EncodeRune_bytes
  by_contra hlt
  have h1 := EncodeRune_DecodeRune c rest hc hv
  have h2 : EncodeRune (DecodeRune (c :: rest)).1 = [(DecodeRune (c :: rest)).1] := by
    simp only [EncodeRune]
    rw [if_pos (by omega)]
  rw [h2] at h1
  have hpos := DecodeRune_size_pos c rest
  obtain ⟨n, hn⟩ : ∃ n, (DecodeRune (c :: rest)).2 = n + 1 := ⟨_, (Nat.sub_add_cancel hpos).symm⟩
  rw [hn, List.take_succ_cons] at h1
  have h3 := (List.cons.inj h1).1
  omega

theorem Escaped_append_plain (p t : GoString) (hp : ∀ b ∈ p, 0x80 ≤ b) (ht : Escaped t) :
    Escaped (p ++ t) := by
  induction p with
  | nil => exact ht
  | cons a as ih =>
    have ha := hp a (List.mem_cons_self _ _)
    exact Escaped.plain a _ (by omega) (by omega) (by omega)
      (ih (fun b hb => hp b (List.mem_cons_of_mem _ hb)))

theorem isHexDigit_hex (n : Nat) (hn : n < 16) : isHexDigit (hex n) = true := by
  simp only [hex, isHexDigit]
  split_ifs <;> simp <;> omega

theorem escapeByte_escaped (b : Nat) (t : GoString) (hb : b < 0x80) (ht : Escaped t) :
    Escaped (escapeByte b ++ t) := by
  unfold escapeByte
  split_ifs with h1 h2 h3 h4 h5 h6
  · exact Escaped.esc b t (by omega) ht
  · exact Escaped.esc _ t (by simp) ht
  · exact Escaped.esc _ t (by simp) ht
  · exact Escaped.esc _ t (by simp) ht
  · exact Escaped.esc _ t (by simp) ht
  · exact Escaped.esc _ t (by simp) ht
  · exact Escaped.escU _ _ _ _ t (by decide) (by decide) (isHexDigit_hex _ (by omega))
      (isHexDigit_hex _ (by omega)) ht

theorem appendStringLoop_escaped (fuel : Nat) (k : GoString) :
    Escaped (appendStringLoop fuel k) := by
  induction fuel generalizing k with
  | zero => exact Escaped.nil
  | succ n ih =>
    cases k with
    | nil => exact Escaped.nil
    | cons b rest =>
      simp only [appendStringLoop]
      split_ifs with h1 h2 h3 h4
      · simp only [htmlSafe, Bool.and_eq_true, decide_eq_true_eq, bne_iff_ne, ne_eq] at h2
        exact Escaped.plain b _ (by omega) (by omega) (by omega) (ih rest)
      · exact escapeByte_escaped b _ h1 (ih rest)
      · exact Escaped.escU _ _ _ _ _ (by decide) (by decide) (by decide) (by decide) (ih rest)
      · have : isHexDigit (hex ((DecodeRune (List.take 4 (b :: rest))).1 % 16)) = true :=
          isHexDigit_hex _ (Nat.mod_lt _ (by decide))
        exact Escaped.escU _ _ _ _ _ (by decide) (by decide) (by decide) this (ih _)
      · rw [DecodeRune_take4] at h3 ⊢
        exact Escaped_append_plain _ _ (DecodeRune_bytes b rest (by omega) h3) (ih _)

theorem unquoteSlow_fuel (f1 f2 : Nat) (y : GoString) (h1 : y.length ≤ f1) (h2 : y.length ≤ f2) :
    unquoteSlow f1 y = unquoteSlow f2 y := by
  induction f1 generalizing f2 y with
  | zero =>
    have : y = [] := List.length_eq_zero.mp (by omega)
    subst this
    cases f2 <;> simp [unquoteSlow]
  | succ n ih =>
    cases y with
    | nil => cases f2 <;> simp [unquoteSlow]
    | cons c rest =>
      cases f2 with
      | zero => simp at h2
      | succ m =>
        have hpos := DecodeRune_size_pos c rest
        simp only [List.length_cons] at h1 h2
        have e1 : ∀ X : GoString, X.length ≤ rest.length → unquoteSlow n X = unquoteSlow m X :=
          fun X hX => ih m X (by omega) (by omega)
        simp only [unquoteSlow]
        rw [e1 rest (le_refl _),
          e1 ((c :: rest).drop (DecodeRune (c :: rest)).2)
            (by simp only [List.length_drop, List.length_cons]; omega)]
        cases rest with
        | nil => rfl
        | cons e rest2 =>
          simp only
          rw [e1 rest2 (by simp), e1 (List.drop 11 (e :: rest2)) (by simp; omega),
            e1 (List.drop 5 (e :: rest2)) (by simp; omega)]

theorem DecodeRune_take (s : GoString) :
    DecodeRune (s.take (DecodeRune s).2) = DecodeRune s ∨ DecodeRune s = (RuneError, 1) := by
  match s with
  | [] => left; rfl
  | s0 :: rest =>
    by_cases h0 : s0 < 0x80
    · left
      simp [DecodeRune, h0]
    · cases hf : first s0 with
      | none => right; simp [DecodeRune, h0, hf]
      | some t =>
        obtain ⟨sz, lo, hi⟩ := t
        have hfc := first_cases hf
        match rest with
        | [] => right; simp [DecodeRune, h0, hf]
        | s1 :: rest1 =>
          by_cases h1 : s1 < lo ∨ hi < s1
          · right; simp [DecodeRune, h0, hf, h1]
          · by_cases h2 : sz ≤ 2
            · left; simp [DecodeRune, h0, hf, h1, h2]
            · match rest1 with
              | [] => right; simp [DecodeRune, h0, hf, h1, h2]
              | s2 :: rest2 =>
                by_cases h3 : isCont s2 = true
                · by_cases h4 : sz ≤ 3
                  · left; simp [DecodeRune, h0, hf, h1, h2, h3, h4]
                  · match rest2 with
                    | [] => right; simp [DecodeRune, h0, hf, h1, h2, h3, h4]
                    | s3 :: rest3 =>
                      by_cases h5 : isCont s3 = true
                      · left; simp [DecodeRune, h0, hf, h1, h2, h3, h4, h5]
                      · right; simp [DecodeRune, h0, hf, h1, h2, h3, h4, h5]
                · right; simp [DecodeRune, h0, hf, h1, h2, h3]

theorem hexVal_hex (n : Nat) (hn : n < 16) : hexVal (hex n) = some n := by
  simp only [hex, hexVal]
  split_ifs <;> (try simp) <;> (try omega)

theorem unquoteSlow_nil (f : Nat) : unquoteSlow f [] = some [] := by
  cases f <;> simp [unquoteSlow]

theorem validLoop_cons (n b : Nat) (rest : GoString) (h : validLoop (n + 1) (b :: rest) = true) :
    ¬ ((DecodeRune (b :: rest)).1 = RuneError ∧ (DecodeRune (b :: rest)).2 = 1) ∧
      validLoop n ((b :: rest).drop (DecodeRune (b :: rest)).2) = true := by
  rw [not_and_or]
  simpa [validLoop] using h

theorem unquoteSlow_escapeByte (b m : Nat) (t : GoString) (hb : b < 0x80) :
    unquoteSlow (m + 1) (escapeByte b ++ t) = (unquoteSlow m t).map (fun r => b :: r) := by
  unfold escapeByte
  split_ifs with h1 h2 h3 h4 h5 h6
  · rcases h1 with h1 | h1 <;> subst h1 <;> simp [unquoteSlow]
  · subst h2; simp [unquoteSlow]
  · subst h3; simp [unquoteSlow]
  · subst h4; simp [unquoteSlow]
  · subst h5; simp [unquoteSlow]
  · subst h6; simp [unquoteSlow]
  · have hv1 := hexVal_hex (b / 16) (by omega)
    have hv2 := hexVal_hex (b % 16) (by omega)
    have h0 : hexVal 0x30 = some 0 := by decide
    have hns : ¬ (0xD800 ≤ b ∧ b < 0xE000) := by omega
    have hg : getu4 (0x5C :: 0x75 :: 0x30 :: 0x30 :: hex (b / 16) :: hex (b % 16) :: t) = some b := by
      simp only [getu4, h0, hv1, hv2]
      congr 1
      omega
    have he : EncodeRune b = [b] := by simp [EncodeRune, hb]
    have hl : [0x5C, 0x75, 0x30, 0x30, hex (b / 16), hex (b % 16)] ++ t =
        0x5C :: 0x75 :: 0x30 :: 0x30 :: hex (b / 16) :: hex (b % 16) :: t := rfl
    rw [hl]
    simp only [unquoteSlow, if_true, Nat.reduceEqDiff,
      if_false, hg, hns, he, List.drop_succ_cons, List.drop_zero, or_self, or_false, false_or,
      List.singleton_append]

theorem unquoteSlow_rune (c m : Nat) (rest t : GoString) (hc : 0x80 ≤ c)
    (hv : ¬ ((DecodeRune (c :: rest)).1 = RuneError ∧ (DecodeRune (c :: rest)).2 = 1)) :
    unquoteSlow (m + 1) ((c :: rest).take (DecodeRune (c :: rest)).2 ++ t) =
      (unquoteSlow m t).map (fun r => (c :: rest).take (DecodeRune (c :: rest)).2 ++ r) := by
  have hpos := DecodeRune_size_pos c rest
  have hle := DecodeRune_size_le (c :: rest)
  obtain ⟨n, hn⟩ : ∃ n, (DecodeRune (c :: rest)).2 = n + 1 := ⟨_, (Nat.sub_add_cancel hpos).symm⟩
  have hd : DecodeRune ((c :: rest).take (DecodeRune (c :: rest)).2 ++ t) =
      DecodeRune (c :: rest) := by
    rcases DecodeRune_take (c :: rest) with h | h
    · rw [DecodeRune_append _ _ (by rw [h]; intro h2; rw [h2] at hv; exact hv ⟨rfl, rfl⟩)
        (by rw [hn]; simp), h]
    · rw [h] at hv
      exact absurd ⟨rfl, rfl⟩ hv
  have hdrop : ((c :: rest).take (DecodeRune (c :: rest)).2 ++ t).drop
      (DecodeRune (c :: rest)).2 = t := by
    apply List.drop_left'
    rw [List.length_take]
    omega
  have henc := EncodeRune_DecodeRune c rest hc hv
  have h1 : ¬ c = 0x5C := by omega
  have h2 : ¬ (c = 0x22 ∨ c < 0x20) := by omega
  have h3 : ¬ c < 0x80 := by omega
  have hcons : (c :: rest).take (DecodeRune (c :: rest)).2 ++ t =
      c :: (rest.take n ++ t) := by rw [hn]; rfl
  rw [hcons] at hd hdrop
  conv_lhs => rw [hcons]
  simp only [unquoteSlow, h1, h2, h3, if_false, hd, hdrop, henc]

theorem unquoteSlow_appendStringLoop (fuel : Nat) (k : GoString) (f2 : Nat)
    (hk : k.length ≤ fuel) (hv : validLoop fuel k = true)
    (hf : (appendStringLoop fuel k).length ≤ f2) :
    unquoteSlow f2 (appendStringLoop fuel k) = some k := by
  induction fuel generalizing k f2 with
  | zero =>
    have : k = [] := List.length_eq_zero.mp (by omega)
    subst this
    simp [appendStringLoop, unquoteSlow_nil]
  | succ n ih =>
    cases k with
    | nil => simp [appendStringLoop, unquoteSlow_nil]
    | cons b rest =>
      obtain ⟨hv1, hv2⟩ := validLoop_cons n b rest hv
      have hpos := DecodeRune_size_pos b rest
      simp only [List.length_cons] at hk
      simp only [appendStringLoop] at hf ⊢
      split_ifs at hf ⊢ with h1 h2 h3 h4
      · -- a safe ASCII byte
        rw [DecodeRune_ascii b rest h1] at hv2
        simp only [List.drop_succ_cons, List.drop_zero] at hv2
        simp only [htmlSafe, Bool.and_eq_true, decide_eq_true_eq, bne_iff_ne, ne_eq] at h2
        obtain ⟨m, rfl⟩ : ∃ m, f2 = m + 1 := by
          cases f2 with
          | zero => simp at hf
          | succ m => exact ⟨m, rfl⟩
        simp only [List.singleton_append, List.length_cons] at hf ⊢
        have ha : ¬ b = 0x5C := by omega
        have hb : ¬ (b = 0x22 ∨ b < 0x20) := by omega
        simp only [unquoteSlow, ha, hb, h1, if_false, if_true]
        rw [ih rest m (by omega) hv2 (by omega)]
        rfl
      · -- an escaped ASCII byte
        rw [DecodeRune_ascii b rest h1] at hv2
        simp only [List.drop_succ_cons, List.drop_zero] at hv2
        have hlen : 1 ≤ (escapeByte b).length := by
          unfold escapeByte
          split_ifs <;> simp
        obtain ⟨m, rfl⟩ : ∃ m, f2 = m + 1 := by
          cases f2 with
          | zero => simp only [List.length_append] at hf; omega
          | succ m => exact ⟨m, rfl⟩
        rw [unquoteSlow_escapeByte b m _ h1]
        rw [unquoteSlow_fuel m (appendStringLoop n rest).length _ (by
          simp only [List.length_append] at hf; omega) (le_refl _)]
        rw [ih rest _ (by omega) hv2 (le_refl _)]
        rfl
      · -- an invalid byte: excluded
        rw [DecodeRune_take4] at h3
        exact absurd h3 hv1
      · -- U+2028 and U+2029
        rw [DecodeRune_take4] at h4 hf ⊢
        have hu : goStr "\\u202" = [0x5C, 0x75, 0x32, 0x30, 0x32] := by decide
        rw [hu] at hf ⊢
        have hlt : (DecodeRune (b :: rest)).1 % 16 < 16 := Nat.mod_lt _ (by decide)
        have hx := hexVal_hex _ hlt
        have hg : ∀ t, getu4 (0x5C :: 0x75 :: 0x32 :: 0x30 :: 0x32 ::
            hex ((DecodeRune (b :: rest)).1 % 16) :: t) = some (DecodeRune (b :: rest)).1 := by
          intro t
          have e2 : hexVal 0x32 = some 2 := by decide
          have e0 : hexVal 0x30 = some 0 := by decide
          simp only [getu4, e2, e0, hx]
          congr 1
          omega
        have hns : ¬ (0xD800 ≤ (DecodeRune (b :: rest)).1 ∧ (DecodeRune (b :: rest)).1 < 0xE000) := by
          omega
        obtain ⟨m, rfl⟩ : ∃ m, f2 = m + 1 := by
          cases f2 with
          | zero => simp at hf
          | succ m => exact ⟨m, rfl⟩
        have hl : [0x5C, 0x75, 0x32, 0x30, 0x32] ++ [hex ((DecodeRune (b :: rest)).1 % 16)] ++
            appendStringLoop n (List.drop (DecodeRune (b :: rest)).2 (b :: rest)) =
            0x5C :: 0x75 :: 0x32 :: 0x30 :: 0x32 :: hex ((DecodeRune (b :: rest)).1 % 16) ::
              appendStringLoop n (List.drop (DecodeRune (b :: rest)).2 (b :: rest)) := rfl
        rw [hl] at hf ⊢
        simp only [unquoteSlow, if_true, Nat.reduceEqDiff, if_false, hg, hns,
          List.drop_succ_cons, List.drop_zero, or_self, or_false, false_or]
        rw [unquoteSlow_fuel m (appendStringLoop n _).length _ (by
          simp only [List.length_cons] at hf; omega) (le_refl _)]
        rw [ih _ _ (by simp only [List.length_drop, List.length_cons]; omega) hv2 (le_refl _)]
        rw [EncodeRune_DecodeRune b rest (by omega) hv1]
        simp only [Option.map_some', List.take_append_drop]
      · rw [DecodeRune_take4] at h3 h4 hf ⊢
        obtain ⟨m, rfl⟩ : ∃ m, f2 = m + 1 := by
          cases f2 with
          | zero =>
            simp only [List.length_append, List.length_take, List.length_cons] at hf
            omega
          | succ m => exact ⟨m, rfl⟩
        rw [unquoteSlow_rune b m rest _ (by omega) hv1]
        rw [unquoteSlow_fuel m (appendStringLoop n _).length _ (by
          have hle := DecodeRune_size_le (b :: rest)
          simp only [List.length_append, List.length_take, List.length_cons] at hf hle
          omega) (le_refl _)]
        rw [ih _ _ (by simp only [List.length_drop, List.length_cons]; omega) hv2 (le_refl _)]
        simp only [Option.map_some', List.take_append_drop]

theorem unquoteSlow_unquoteScan (fuel : Nat) (y : GoString) (f2 : Nat) (hf : y.length ≤ f2) :
    unquoteSlow f2 y =
      (unquoteSlow (unquoteScan fuel y).2.length (unquoteScan fuel y).2).map
        (fun t => (unquoteScan fuel y).1 ++ t) := by
  induction fuel generalizing y f2 with
  | zero =>
    simp only [unquoteScan, List.nil_append, Option.map_id']
    exact unquoteSlow_fuel _ _ _ hf (le_refl _)
  | succ n ih =>
    cases y with
    | nil => simp [unquoteScan, unquoteSlow_nil]
    | cons c rest =>
      obtain ⟨m, rfl⟩ : ∃ m, f2 = m + 1 := by
        cases f2 with
        | zero => simp at hf
        | succ m => exact ⟨m, rfl⟩
      simp only [List.length_cons] at hf
      have hpos := DecodeRune_size_pos c rest
      simp only [unquoteScan]
      split_ifs with h1 h2 h3
      · simp only [List.nil_append, Option.map_id']
        exact unquoteSlow_fuel _ _ _ (by simp only [List.length_cons]; omega) (le_refl _)
      · have ha : ¬ c = 0x5C := by omega
        have hb : ¬ (c = 0x22 ∨ c < 0x20) := by omega
        simp only [unquoteSlow, ha, hb, h2, if_false, if_true]
        rw [ih rest m (by omega), Option.map_map]
        rfl
      · simp only [List.nil_append, Option.map_id']
        exact unquoteSlow_fuel _ _ _ (by simp only [List.length_cons]; omega) (le_refl _)
      · have ha : ¬ c = 0x5C := by omega
        have hb : ¬ (c = 0x22 ∨ c < 0x20) := by omega
        simp only [unquoteSlow, ha, hb, h2, if_false]
        rw [ih _ m (by simp only [List.length_drop, List.length_cons]; omega), Option.map_map,
          EncodeRune_DecodeRune c rest (by omega) h3]
        congr 1
        funext t
        simp only [Function.comp_apply, List.append_assoc]

theorem unquoteBytes_appendString (k : GoString) (hv : ValidString k = true) :
    unquoteBytes (appendString k) = some k := by
  have hS := unquoteSlow_appendStringLoop k.length k _ (le_refl _) hv (le_refl _)
  have hF := unquoteSlow_unquoteScan (appendStringLoop k.length k).length
    (appendStringLoop k.length k) _ (le_refl _)
  rw [hS] at hF
  have h1 : ¬ ((appendString k).length < 2 ∨ (appendString k).head? ≠ some 0x22 ∨
      (appendString k).getLast? ≠ some 0x22) := by
    have hl : (appendString k).getLast? = some 0x22 := by
      have : appendString k = (0x22 :: appendStringLoop k.length k) ++ [0x22] := by
        simp [appendString]
      rw [this, List.getLast?_append]
      rfl
    have hh : (appendString k).head? = some 0x22 := by simp [appendString]
    have hlen : 2 ≤ (appendString k).length := by simp [appendString]
    rw [hl, hh]
    simp only [ne_eq, not_true_eq_false, or_self, or_false]
    omega
  have h2 : ((appendString k).drop 1).dropLast = appendStringLoop k.length k := by
    simp [appendString]
  simp only [unquoteBytes, h1, if_false, h2]
  split_ifs with h3
  · rw [h3] at hF
    simp only [List.length_nil, unquoteSlow_nil, Option.map_some', List.append_nil] at hF
    exact hF.symm
  · exact hF.symm

theorem MarshalIndent_eq (k : GoString) :
    MarshalIndent ⟨k⟩ =
      goStr "\x7b\n  \"api_key\": \"" ++
        (appendStringLoop k.length k ++ goStr "\"\n\x7d") := by
  have h1 : goStr "\x7b\n  \"api_key\": " = [123, 10, 32, 32, 34, 97, 112, 105, 95, 107, 101, 121, 34, 58, 32] := by
    decide
  have h2 : goStr "\x7b\n  \"api_key\": \"" = [123, 10, 32, 32, 34, 97, 112, 105, 95, 107, 101, 121, 34, 58, 32, 34] := by
    decide
  have h3 : goStr "\n\x7d" = [10, 125] := by decide
  have h4 : goStr "\"\n\x7d" = [34, 10, 125] := by decide
  simp only [MarshalIndent, appendString, h1, h2, h3, h4]
  simp

theorem checkValid_MarshalIndent (k : GoString) : checkValid (MarshalIndent ⟨k⟩) = none := by
  rw [MarshalIndent_eq, checkValid, checkValidFrom_prefix,
    checkValidFrom_escaped _ _ _ _ (appendStringLoop_escaped _ _), checkValidFrom_suffix]

theorem objectMembers_api_key (fuel : Nat) (d : DecodeState) (x : GoString) :
    objectMembers (fuel + 1) d (goStr "\n  \"api_key\": \"" ++ x) =
      match (skipValue (0x22 :: x)).dropWhile isSpace with
      | [] => storeAPIKey d (0x22 :: x)
      | c2 :: rest =>
        if c2 = 0x2C then objectMembers fuel (storeAPIKey d (0x22 :: x)) rest
        else storeAPIKey d (0x22 :: x) := by
  rfl

theorem decodeConfig_object (d : DecodeState) (x : GoString) :
    decodeConfig d (goStr "\x7b\n  \"api_key\": \"" ++ x) =
      objectMembers ((goStr "\n  \"api_key\": \"" ++ x).length + 1) d
        (goStr "\n  \"api_key\": \"" ++ x) := by
  rfl

theorem Unmarshal_MarshalIndent (k : GoString) (c0 : Config) (hv : ValidString k = true) :
    Unmarshal (MarshalIndent ⟨k⟩) c0 = (⟨k⟩, none) := by
  have h4 : goStr "\"\n\x7d" = 0x22 :: [10, 125] := by decide
  have hlit := stringLit_escaped (appendStringLoop k.length k) [10, 125]
    (appendStringLoop_escaped _ _)
  have hun := unquoteBytes_appendString k hv
  have hstore : ∀ d : DecodeState,
      storeAPIKey d (0x22 :: (appendStringLoop k.length k ++ 0x22 :: [10, 125])) =
        { d with config := ⟨k⟩ } := by
    intro d
    have : (0x22 :: (appendStringLoop k.length k ++ [0x22])) = appendString k := by
      simp [appendString]
    simp only [storeAPIKey, if_true, hlit, this, hun]
  have hskip : (skipValue (0x22 :: (appendStringLoop k.length k ++ 0x22 :: [10, 125]))).dropWhile
      isSpace = [125] := by
    simp only [skipValue, if_true, hlit]
    decide
  simp only [Unmarshal, checkValid_MarshalIndent]
  rw [MarshalIndent_eq, decodeConfig_object, objectMembers_api_key, h4, hskip, hstore]
  simp

theorem cleanRun_sep (r : Bool) (m : CleanMode) (p q : GoString) (s : CleanState)
    (hm : m = .skip → p ≠ []) :
    cleanRun r m (p ++ 0x2F :: q) s = cleanRun r .start q (cleanRun r m p s) := by
  induction p generalizing m s with
  | nil =>
    cases m with
    | start => simp [cleanRun]
    | inElem => simp [cleanRun]
    | skip => exact absurd rfl (hm rfl)
  | cons c rest ih =>
    cases m with
    | skip =>
      simp only [List.cons_append, cleanRun, List.append_eq]
      exact ih .start s (fun h => by cases h)
    | inElem =>
      simp only [List.cons_append, cleanRun, List.append_eq]
      split_ifs
      · exact ih .start s (fun h => by cases h)
      · exact ih .inElem _ (fun h => by cases h)
    | start =>
      have h1 : (rest ++ 0x2F :: q = [] ∨ (rest ++ 0x2F :: q).head? = some 0x2F) ↔
          (rest = [] ∨ rest.head? = some 0x2F) := by
        cases rest <;> simp
      have h2 : ((rest ++ 0x2F :: q).head? = some 0x2E ∧
          ((rest ++ 0x2F :: q).tail = [] ∨ (rest ++ 0x2F :: q).tail.head? = some 0x2F)) ↔
          (rest.head? = some 0x2E ∧ (rest.tail = [] ∨ rest.tail.head? = some 0x2F)) := by
        match rest with
        | [] => simp
        | [a] => simp
        | a :: b :: t => simp
      simp only [List.cons_append, cleanRun, List.append_eq, h1, h2]
      split_ifs with c1 c2 c3
      · exact ih .start s (fun h => by cases h)
      · exact ih .start s (fun h => by cases h)
      · refine ih .skip _ (fun _ => ?_)
        intro h0
        rw [h0] at c3
        simp at c3
      · exact ih .inElem _ (fun h => by cases h)

theorem cleanRun_inElem_plain (r : Bool) (e : GoString) (s : CleanState) (he : 0x2F ∉ e) :
    cleanRun r .inElem e s = { s with out := s.out ++ e } := by
  induction e generalizing s with
  | nil => simp [cleanRun]
  | cons c rest ih =>
    have hc : ¬ c = 0x2F := fun h => he (by rw [h]; exact List.mem_cons_self _ _)
    simp only [cleanRun, hc, if_false]
    rw [ih _ (fun h => he (List.mem_cons_of_mem _ h))]
    simp

theorem cleanRun_real (r : Bool) (e : GoString) (s : CleanState) (he : isRealElem e) :
    cleanRun r .start e s = { s with out := withSeparator r s.out ++ e } := by
  obtain ⟨h1, h2, h3, h4⟩ := he
  match e, h1 with
  | c :: rest, _ =>
    have hc : ¬ c = 0x2F := fun h => h2 (by rw [h]; exact List.mem_cons_self _ _)
    have hrest : 0x2F ∉ rest := fun h => h2 (List.mem_cons_of_mem _ h)
    have c1 : ¬ (c = 0x2E ∧ (rest = [] ∨ rest.head? = some 0x2F)) := by
      rintro ⟨hc1, hr | hr⟩
      · exact h3 (by rw [hc1, hr])
      · cases rest with
        | nil => simp at hr
        | cons a t =>
          simp only [List.head?_cons, Option.some.injEq] at hr
          exact hrest (by rw [hr]; exact List.mem_cons_self _ _)
    have c2 : ¬ (c = 0x2E ∧ rest.head? = some 0x2E ∧
        (rest.tail = [] ∨ rest.tail.head? = some 0x2F)) := by
      rintro ⟨hc1, hr1, hr2⟩
      match rest, hr1 with
      | a :: t, hr1 =>
        simp only [List.head?_cons, Option.some.injEq] at hr1
        simp only [List.tail_cons] at hr2
        rcases hr2 with hr2 | hr2
        · exact h4 (by rw [hc1, hr1, hr2])
        · cases t with
          | nil => simp at hr2
          | cons b u =>
            simp only [List.head?_cons, Option.some.injEq] at hr2
            exact hrest (by rw [hr2]; simp)
    simp only [cleanRun, hc, c1, c2, if_false]
    rw [cleanRun_inElem_plain r rest _ hrest]
    simp

theorem CleanNormal_facts (r : Bool) (s : CleanState) (h : CleanNormal r s) :
    s.dotdot ≤ s.out.length ∧
      (r = true → s.dotdot = 1 ∧ s.out.head? = some 0x2F) ∧
      (r = false → s.out.head? ≠ some 0x2F) := by
  induction h with
  | init => cases r <;> simp [cleanInit]
  | dotdot s hr _ hlen ih =>
    subst hr
    have hlt : ¬ s.dotdot < s.out.length := by omega
    simp only [cleanDotDot, hlt, if_false, if_true]
    refine ⟨le_refl _, fun h => Bool.noConfusion h, fun _ => ?_⟩
    split_ifs with h0
    · have := ih.2.2 rfl
      cases hs : s.out with
      | nil => rw [hs] at h0; simp at h0
      | cons a t =>
        rw [hs] at this
        simpa using this
    · have hnil : s.out = [] := List.length_eq_zero.mp (by omega)
      simp [hnil]
  | real s e _ he ih =>
    obtain ⟨h1, h2, _, _⟩ := he
    refine ⟨?_, ?_, ?_⟩
    · simp only [withSeparator]
      split_ifs <;> simp only [List.length_append] <;> omega
    · intro hr
      refine ⟨(ih.2.1 hr).1, ?_⟩
      have hh := (ih.2.1 hr).2
      cases hs : s.out with
      | nil => rw [hs] at hh; simp at hh
      | cons a t =>
        rw [hs] at hh
        simp only [List.head?_cons, Option.some.injEq] at hh
        simp only [withSeparator]
        split_ifs <;> simp [hh]
    · intro hr
      have hh := ih.2.2 hr
      simp only [withSeparator, hr]
      cases hs : s.out with
      | nil =>
        match e, h1 with
        | c :: rest, _ =>
          have hc : ¬ c = 0x2F := fun h => h2 (by rw [h]; exact List.mem_cons_self _ _)
          simp [hc]
      | cons a t =>
        rw [hs] at hh
        simp only [List.head?_cons, ne_eq, Option.some.injEq] at hh
        simp [hh]

theorem backtrackLoop_sep (d : Nat) (t base : GoString) (c : Nat) (ht : 0x2F ∉ t)
    (hc : c ≠ 0x2F) (hd : d ≤ base.length) :
    backtrackLoop d (t ++ 0x2F :: base) c = base := by
  induction t generalizing c with
  | nil =>
    have h1 : d < (0x2F :: base).length := by simp only [List.length_cons]; omega
    have h2 : backtrackLoop d base 0x2F = base := by
      cases base with
      | nil => rfl
      | cons b bs => simp [backtrackLoop]
    simp only [List.nil_append, backtrackLoop]
    rw [if_pos ⟨h1, hc⟩, h2]
  | cons a t ih =>
    have ha : a ≠ 0x2F := fun h => ht (by rw [h]; exact List.mem_cons_self _ _)
    have h1 : d < (a :: (t ++ 0x2F :: base)).length := by
      simp only [List.length_cons, List.length_append]; omega
    simp only [List.cons_append, backtrackLoop, List.append_eq]
    rw [if_pos ⟨h1, hc⟩]
    exact ih a (fun h => ht (List.mem_cons_of_mem _ h)) ha

theorem backtrackLoop_base (d : Nat) (t base : GoString) (c : Nat) (ht : 0x2F ∉ t)
    (hc : c ≠ 0x2F) (hd : base.length = d) :
    backtrackLoop d (t ++ base) c = base := by
  induction t generalizing c with
  | nil =>
    cases base with
    | nil => rfl
    | cons b bs =>
      have h1 : ¬ (d < (b :: bs).length ∧ c ≠ 0x2F) := by
        intro h
        omega
      simp only [List.nil_append, backtrackLoop]
      rw [if_neg h1]
  | cons a t ih =>
    have ha : a ≠ 0x2F := fun h => ht (by rw [h]; exact List.mem_cons_self _ _)
    have h1 : d < (a :: (t ++ base)).length := by
      simp only [List.length_cons, List.length_append]; omega
    simp only [List.cons_append, backtrackLoop, List.append_eq]
    rw [if_pos ⟨h1, hc⟩]
    exact ih a (fun h => ht (List.mem_cons_of_mem _ h)) ha

theorem backtrack_real (r : Bool) (s : CleanState) (e : GoString) (hs : CleanNormal r s)
    (he : isRealElem e) : backtrack (withSeparator r s.out ++ e) s.dotdot = s.out := by
  obtain ⟨h1, h2, _, _⟩ := he
  obtain ⟨f1, f2, f3⟩ := CleanNormal_facts r s hs
  obtain ⟨c, t, hct⟩ : ∃ c t, e.reverse = c :: t := by
    cases hr : e.reverse with
    | nil => exact absurd (List.reverse_eq_nil_iff.mp hr) h1
    | cons c t => exact ⟨c, t, rfl⟩
  have hmem : ∀ x ∈ c :: t, x ≠ 0x2F := by
    intro x hx h
    rw [← hct, List.mem_reverse] at hx
    exact h2 (by rw [← h]; exact hx)
  have hc : c ≠ 0x2F := hmem c (List.mem_cons_self _ _)
  have ht : 0x2F ∉ t := fun h => hmem _ (List.mem_cons_of_mem _ h) rfl
  unfold withSeparator
  split_ifs with hsep
  · have hrev : (s.out ++ [0x2F] ++ e).reverse = c :: (t ++ 0x2F :: s.out.reverse) := by
      simp [hct]
    unfold backtrack
    rw [hrev]
    simp only
    rw [backtrackLoop_sep s.dotdot t s.out.reverse c ht hc (by rw [List.length_reverse]; exact f1),
      List.reverse_reverse]
  · have hd : s.out.reverse.length = s.dotdot := by
      simp only [List.length_reverse]
      cases r with
      | true =>
        have := (f2 rfl).1
        simp only [true_and, Bool.true_eq_false, false_and, or_false, ne_eq,
          Decidable.not_not] at hsep
        omega
      | false =>
        simp only [Bool.false_eq_true, false_and, true_and, false_or, ne_eq,
          Decidable.not_not] at hsep
        omega
    have hrev : (s.out ++ e).reverse = c :: (t ++ s.out.reverse) := by
      simp [hct]
    unfold backtrack
    rw [hrev]
    simp only
    rw [backtrackLoop_base s.dotdot t s.out.reverse c ht hc hd, List.reverse_reverse]

theorem cleanRun_inElem (r : Bool) (rest : GoString) (s : CleanState) :
    cleanRun r .inElem rest s =
      cleanRun r .start (rest.dropWhile (fun b => b != 0x2F))
        { s with out := s.out ++ rest.takeWhile (fun b => b != 0x2F) } := by
  induction rest generalizing s with
  | nil => simp [cleanRun]
  | cons c t ih =>
    by_cases hc : c = 0x2F
    · subst hc
      simp [cleanRun]
    · have hb : (c != 0x2F) = true := by simpa using hc
      simp only [cleanRun, hc, if_false, List.dropWhile_cons, List.takeWhile_cons, hb, if_true]
      rw [ih]
      simp

theorem cleanDotDot_normal (r : Bool) (s : CleanState) (hs : CleanNormal r s) :
    CleanNormal r (cleanDotDot r s) := by
  by_cases hlt : s.dotdot < s.out.length
  · have hb : cleanDotDot r s = { s with out := backtrack s.out s.dotdot } := by
      simp [cleanDotDot, hlt]
    rw [hb]
    cases hs with
    | init => cases r <;> simp [cleanInit] at hlt
    | dotdot s0 hr h0 hlen =>
      exfalso
      subst hr
      have h1 : ¬ s0.dotdot < s0.out.length := by omega
      simp only [cleanDotDot, h1, if_false, if_true] at hlt
      omega
    | real s0 e h0 he =>
      simp only [backtrack_real r s0 e h0 he]
      exact h0
  · cases r with
    | false =>
      have := (CleanNormal_facts false s hs).1
      exact CleanNormal.dotdot s rfl hs (by omega)
    | true =>
      have hb : cleanDotDot true s = s := by simp [cleanDotDot, hlt]
      rw [hb]
      exact hs

theorem cleanRun_normal (r : Bool) (n : Nat) (p : GoString) (hp : p.length ≤ n)
    (s : CleanState) (hs : CleanNormal r s) : CleanNormal r (cleanRun r .start p s) := by
  induction n generalizing p s with
  | zero =>
    have : p = [] := List.length_eq_zero.mp (by omega)
    subst this
    simpa [cleanRun] using hs
  | succ n ih =>
    cases p with
    | nil => simpa [cleanRun] using hs
    | cons c rest =>
      simp only [List.length_cons] at hp
      simp only [cleanRun]
      split_ifs with c1 c2 c3
      · exact ih rest (by omega) s hs
      · exact ih rest (by omega) s hs
      · match rest, c3 with
        | a :: t, c3 =>
          simp only [cleanRun]
          simp only [List.length_cons] at hp
          exact ih t (by omega) _ (cleanDotDot_normal r s hs)
      · rw [cleanRun_inElem]
        have hlen : (rest.dropWhile (fun b => b != 0x2F)).length ≤ n := by
          have := (List.dropWhile_sublist (fun b => b != 0x2F) :
            List.Sublist (List.dropWhile (fun b => b != 0x2F) rest) rest).length_le
          omega
        refine ih _ hlen _ ?_
        have hreal : isRealElem (c :: rest.takeWhile (fun b => b != 0x2F)) := by
          refine ⟨by simp, ?_, ?_, ?_⟩
          · intro hm
            rcases List.mem_cons.mp hm with h | h
            · exact c1 h.symm
            · have := List.mem_takeWhile_imp h
              simp at this
          · intro h
            simp only [List.cons.injEq, List.takeWhile_eq_nil_iff] at h
            obtain ⟨hc, ht⟩ := h
            apply c2
            refine ⟨hc, ?_⟩
            cases rest with
            | nil => exact Or.inl rfl
            | cons a t =>
              right
              have := ht (by simp)
              simpa using this
          · intro h
            simp only [List.cons.injEq] at h
            obtain ⟨hc, ht⟩ := h
            apply c3
            refine ⟨hc, ?_⟩
            match rest, ht with
            | a :: t, ht =>
              by_cases ha : a = 0x2F
              · subst ha
                simp at ht
              · have hb : (a != 0x2F) = true := by simpa using ha
                simp only [List.takeWhile_cons, hb, if_true, List.cons.injEq,
                  List.takeWhile_eq_nil_iff] at ht
                refine ⟨by simp [ht.1], ?_⟩
                cases t with
                | nil => exact Or.inl rfl
                | cons b u =>
                  right
                  have := ht.2 (by simp)
                  simpa using this
        have := CleanNormal.real s _ hs hreal
        simpa using this

theorem cleanRun_fixed (r : Bool) (s : CleanState) (hs : CleanNormal r s) :
    cleanRun r .start s.out (cleanInit r) = s := by
  induction hs with
  | init => cases r <;> simp [cleanInit, cleanRun]
  | dotdot s0 hr h0 hlen ih =>
    subst hr
    have hlt : ¬ s0.dotdot < s0.out.length := by omega
    by_cases hpos : 0 < s0.out.length
    · have hout : (cleanDotDot false s0).out = s0.out ++ 0x2F :: [0x2E, 0x2E] := by
        simp [cleanDotDot, hlt, hpos]
      rw [hout, cleanRun_sep false .start _ _ _ (fun h => by cases h), ih]
      simp [cleanRun]
    · have hnil : s0.out = [] := List.length_eq_zero.mp (by omega)
      have hs0 : s0 = cleanInit false := by
        cases s0 with
        | mk o d =>
          simp only at hnil hlen
          subst hnil
          simp only [List.length_nil] at hlen
          subst hlen
          rfl
      subst hs0
      simp [cleanDotDot, cleanInit, cleanRun]
  | real s0 e h0 he ih =>
    obtain ⟨f1, f2, f3⟩ := CleanNormal_facts r s0 h0
    by_cases hsep : (r = true ∧ s0.out.length ≠ 1) ∨ (r = false ∧ s0.out.length ≠ 0)
    · have hout : withSeparator r s0.out ++ e = s0.out ++ 0x2F :: e := by
        unfold withSeparator
        rw [if_pos hsep]
        simp
      simp only [hout]
      rw [cleanRun_sep r .start _ _ _ (fun h => by cases h), ih, cleanRun_real r e s0 he]
      simp only [hout]
    · have hs0 : s0 = cleanInit r := by
        cases r with
        | true =>
          have hlen : s0.out.length = 1 := by
            by_contra h
            exact hsep (Or.inl ⟨rfl, h⟩)
          obtain ⟨hd, hh⟩ := f2 rfl
          cases s0 with
          | mk o d =>
            simp only at hlen hd hh
            subst hd
            match o, hlen, hh with
            | [a], _, hh =>
              simp only [List.head?_cons, Option.some.injEq] at hh
              subst hh
              rfl
        | false =>
          have hlen : s0.out.length = 0 := by
            by_contra h
            exact hsep (Or.inr ⟨rfl, h⟩)
          cases s0 with
          | mk o d =>
            simp only at hlen f1
            have ho : o = [] := List.length_eq_zero.mp hlen
            subst ho
            simp only [List.length_nil, Nat.le_zero_eq] at f1
            subst f1
            rfl
      subst hs0
      cases r with
      | true =>
        have hw : withSeparator true (cleanInit true).out = [0x2F] := by decide
        rw [hw]
        show cleanRun true .start (0x2F :: e) (cleanInit true) = _
        simp only [cleanRun, if_true]
        rw [cleanRun_real true e _ he, hw]
      | false =>
        have hw : withSeparator false (cleanInit false).out = [] := by decide
        rw [hw]
        simp only [List.nil_append]
        rw [cleanRun_real false e _ he, hw]
        rfl

theorem Clean_cons (c : Nat) (rest : GoString) :
    Clean (c :: rest) =
      if (cleanRun (decide (c = 0x2F)) .start (c :: rest) (cleanInit (decide (c = 0x2F)))).out = []
      then [0x2E]
      else (cleanRun (decide (c = 0x2F)) .start (c :: rest) (cleanInit (decide (c = 0x2F)))).out := by
  by_cases hc : c = 0x2F
  · subst hc
    simp [Clean, cleanInit, cleanRun]
  · simp [Clean, cleanInit, hc]

theorem filepathJoin_nested (h : GoString) :
    filepathJoin [filepathJoin [h, configDir], configFile] =
      filepathJoin [h, configDir, configFile] := by
  cases h with
  | nil => decide
  | cons c hr =>
    have hd : configDir = goStr ".config" ++ 0x2F :: goStr "shelly" := by decide
    have hreal1 : isRealElem (goStr ".config") := by
      refine ⟨by decide, by decide, by decide, by decide⟩
    have hreal2 : isRealElem (goStr "shelly") := by
      refine ⟨by decide, by decide, by decide, by decide⟩
    generalize hr0 : decide (c = 0x2F) = r
    have hn := cleanRun_normal r _ (c :: hr) (le_refl _) _ (CleanNormal.init : CleanNormal r (cleanInit r))
    -- the state after the home directory and the config directory
    obtain ⟨s1, hn2, hrun, hne⟩ : ∃ s1, CleanNormal r s1 ∧
        cleanRun r .start ((c :: hr) ++ 0x2F :: configDir) (cleanInit r) = s1 ∧ s1.out ≠ [] := by
      refine ⟨_, CleanNormal.real _ _ (CleanNormal.real _ _ hn hreal1) hreal2, ?_, ?_⟩
      · rw [cleanRun_sep _ .start _ _ _ (fun h => by cases h), hd,
          cleanRun_sep _ .start _ _ _ (fun h => by cases h), cleanRun_real _ _ _ hreal1,
          cleanRun_real _ _ _ hreal2]
      · exact List.append_ne_nil_of_right_ne_nil _ (by decide)
    obtain ⟨f1, f2, f3⟩ := CleanNormal_facts r s1 hn2
    have e1 : filepathJoin [c :: hr, configDir] = s1.out := by
      have hj : Join [c :: hr, configDir] [0x2F] = c :: (hr ++ 0x2F :: configDir) := by
        simp [Join]
      simp only [filepathJoin, ne_eq, reduceCtorEq, not_false_eq_true, if_true, hj]
      rw [Clean_cons, hr0]
      have hrun2 : cleanRun r .start (c :: (hr ++ 0x2F :: configDir)) (cleanInit r) = s1 := hrun
      rw [hrun2, if_neg hne]
    rw [e1]
    obtain ⟨q0, qr, hq⟩ : ∃ q0 qr, s1.out = q0 :: qr := by
      cases hs : s1.out with
      | nil => exact absurd hs hne
      | cons a t => exact ⟨a, t, rfl⟩
    have hq0 : decide (q0 = 0x2F) = r := by
      cases r with
      | true =>
        have := (f2 rfl).2
        rw [hq] at this
        simpa using this
      | false =>
        have := f3 rfl
        rw [hq] at this
        simpa using this
    have hl : filepathJoin [s1.out, configFile] =
        if (cleanRun r .start configFile s1).out = [] then [0x2E]
        else (cleanRun r .start configFile s1).out := by
      have hj : Join [s1.out, configFile] [0x2F] = q0 :: (qr ++ 0x2F :: configFile) := by
        simp [Join, hq]
      simp only [filepathJoin, ne_eq, hne, not_false_eq_true, if_true, hj]
      rw [Clean_cons, hq0]
      have h2 : q0 :: (qr ++ 0x2F :: configFile) = s1.out ++ 0x2F :: configFile := by
        rw [hq]; rfl
      rw [h2, cleanRun_sep _ .start _ _ _ (fun h => by cases h), cleanRun_fixed r s1 hn2]
    have hrhs : filepathJoin [c :: hr, configDir, configFile] =
        if (cleanRun r .start configFile s1).out = [] then [0x2E]
        else (cleanRun r .start configFile s1).out := by
      have hj : Join [c :: hr, configDir, configFile] [0x2F] =
          c :: (hr ++ 0x2F :: (configDir ++ 0x2F :: configFile)) := by
        simp [Join]
      simp only [filepathJoin, ne_eq, reduceCtorEq, not_false_eq_true, if_true, hj]
      rw [Clean_cons, hr0]
      have h2 : c :: (hr ++ 0x2F :: (configDir ++ 0x2F :: configFile)) =
          ((c :: hr) ++ 0x2F :: configDir) ++ 0x2F :: configFile := by
        simp
      rw [h2, cleanRun_sep _ .start _ _ _ (fun h => by cases h), hrun]
    rw [hl, hrhs]

/-- The file that an encoder writing the three bytes of U+FFFD for an invalid
byte (instead of the six-byte escape of `appendStringLoop`) produces for the
key 0xFF is read by `json.Unmarshal` as the same three bytes: what is read
back for a key that is not valid UTF-8 does not depend on the form written. -/
theorem Unmarshal_raw_replacement :
    Unmarshal (goStr "\x7b\n  \"api_key\": \"" ++ [0xEF, 0xBF, 0xBD] ++ goStr "\"\n\x7d") ⟨[]⟩ =
        (⟨[0xEF, 0xBF, 0xBD]⟩, none) ∧
      Unmarshal (MarshalIndent ⟨[0xFF]⟩) ⟨[]⟩ = (⟨[0xEF, 0xBF, 0xBD]⟩, none) :=
  ⟨rfl, rfl⟩

/-- C6 (as amended): when `initializeConfig` accepts an API key that is valid
UTF-8 and writes the file, the file holds the JSON object with the one member
"api_key", indented by two spaces, and `loadConfig` reads it back without
error into a `Config` whose `APIKey` is the key that was written. -/
theorem config_round_trip (sys : System) (stdin home : GoString)
    (hhome : sys.userHomeDir = .ok home)
    (hmk : sys.mkdirAllErr (filepathJoin [home, configDir]) = none)
    (hwr : sys.writeFileErr (filepathJoin [filepathJoin [home, configDir], configFile]) = none)
    (hkey : TrimSpace (ReadString 10 stdin) ≠ [])
    (hvalid : ValidString (TrimSpace (ReadString 10 stdin)) = true) :
    (initializeConfig sys stdin).2.files (filepathJoin [home, configDir, configFile]) =
        .content (goStr "\x7b\n  \"api_key\": " ++
          appendString (TrimSpace (ReadString 10 stdin)) ++ goStr "\n\x7d") ∧
      loadConfig (initializeConfig sys stdin).2 = .ok ⟨TrimSpace (ReadString 10 stdin)⟩ := by
  have hinit : (initializeConfig sys stdin).2 =
      sys.written (filepathJoin [home, configDir, configFile])
        (MarshalIndent ⟨TrimSpace (ReadString 10 stdin)⟩) := by
    have hjoin := filepathJoin_nested home
    have hwr2 := hwr
    rw [hjoin] at hwr2
    simp only [initializeConfig, hkey, if_false, hhome, hmk, hwr, hjoin, hwr2]
  rw [hinit]
  constructor
  · simp [System.written, MarshalIndent]
  · simp only [loadConfig, System.written, hhome, System.ReadFile, if_true,
      Unmarshal_MarshalIndent _ _ hvalid]

theorem config_round_trip_witness :
    TrimSpace (ReadString 10 (goStr "  sk-or-v1-é\"x\\ \nrest")) ≠ [] ∧
      loadConfig (initializeConfig
          { userHomeDir := .ok (goStr "/home/u"),
            files := fun _ => .absent, mkdirAllErr := fun _ => none,
            writeFileErr := fun _ => none, jsonErrorText := fun _ => [] }
          (goStr "  sk-or-v1-é\"x\\ \nrest")).2 =
        .ok ⟨TrimSpace (ReadString 10 (goStr "  sk-or-v1-é\"x\\ \nrest"))⟩ :=
  ⟨by decide,
    (config_round_trip
      { userHomeDir := .ok (goStr "/home/u"),
        files := fun _ => .absent, mkdirAllErr := fun _ => none,
        writeFileErr := fun _ => none, jsonErrorText := fun _ => [] }
      (goStr "  sk-or-v1-é\"x\\ \nrest") (goStr "/home/u") rfl rfl rfl
      (by decide) (by decide)).2⟩

/-- C6 as stated fails for a key that is not valid UTF-8: for the key made
of the one byte 0xFF, `initializeConfig` writes the escape of U+FFFD, and
`loadConfig` returns the three bytes of U+FFFD, not the key. -/
theorem config_round_trip_counterexample :
    ¬ ∀ (sys : System) (stdin home : GoString),
        sys.userHomeDir = .ok home →
        sys.mkdirAllErr (filepathJoin [home, configDir]) = none →
        sys.writeFileErr (filepathJoin [filepathJoin [home, configDir], configFile]) = none →
        TrimSpace (ReadString 10 stdin) ≠ [] →
        loadConfig (initializeConfig sys stdin).2 = .ok ⟨TrimSpace (ReadString 10 stdin)⟩ := by
  intro h
  have h1 := h
    { userHomeDir := .ok (goStr "/home/u"),
      files := fun _ => .absent, mkdirAllErr := fun _ => none,
      writeFileErr := fun _ => none, jsonErrorText := fun _ => [] }
    [0xFF, 0x0A] (goStr "/home/u") rfl rfl rfl (by decide)
  have h2 : loadConfig (initializeConfig
      { userHomeDir := .ok (goStr "/home/u"),
        files := fun _ => .absent, mkdirAllErr := fun _ => none,
        writeFileErr := fun _ => none, jsonErrorText := fun _ => [] }
      [0xFF, 0x0A]).2 = .ok ⟨[0xEF, 0xBF, 0xBD]⟩ := by
    rfl
  rw [h2] at h1
  have h3 := congrArg Config.APIKey (Except.ok.inj h1)
  revert h3
  decide

/-- C9: with a home directory, `loadConfig` fails with a "reading config
file" error when the config file is absent, and with a "parsing config file"
error when the file is read and `json.Unmarshal` rejects its content (a
syntax error, or a value that does not fit `Config`); the two errors are never
equal, and in both cases the result is an error, not a `Config`.  A file
holding "not json" is a case of the second kind. -/
theorem loadConfig_errors (sys : System) (home : GoString)
    (hhome : sys.userHomeDir = .ok home) :
    (sys.files (filepathJoin [home, configDir, configFile]) = .absent →
      loadConfig sys =
        .error (goStr "reading config file: " ++
          (goStr "open " ++ filepathJoin [home, configDir, configFile] ++
            goStr ": no such file or directory"))) ∧
    (∀ (data : GoString) (err : JsonError),
      sys.files (filepathJoin [home, configDir, configFile]) = .content data →
      (Unmarshal data ⟨[]⟩).2 = some err →
      loadConfig sys = .error (goStr "parsing config file: " ++ sys.jsonErrorText err)) ∧
    (∀ e1 e2 : GoString,
      goStr "reading config file: " ++ e1 ≠ goStr "parsing config file: " ++ e2) ∧
    (Unmarshal (goStr "not json") ⟨[]⟩).2 =
      some (.SyntaxError (some 0x6F) (goStr "in literal null (expecting 'u')")) := by
  refine ⟨?_, ?_, ?_, by decide⟩
  · intro h
    simp only [loadConfig, hhome, System.ReadFile, h]
  · intro data err h hu
    simp only [loadConfig, hhome, System.ReadFile, h]
    cases hr : Unmarshal data ⟨[]⟩ with
    | mk c e =>
      rw [hr] at hu
      simp only at hu
      subst hu
      rfl
  · intro e1 e2 h
    have h1 : goStr "reading config file: " = 114 :: goStr "eading config file: " := by decide
    have h2 : goStr "parsing config file: " = 112 :: goStr "arsing config file: " := by decide
    rw [h1, h2] at h
    simp only [List.cons_append, List.cons.injEq] at h
    omega

theorem loadConfig_errors_witness :
    (⟨.ok (goStr "/home/u"),
        fun p => if p = goStr "/home/u/.config/shelly/config.json" then
          .content (goStr "\x7b\"api_key\": 5\x7d") else .absent,
        fun _ => none, fun _ => none, fun _ => goStr "type error"⟩ : System).userHomeDir =
        .ok (goStr "/home/u") ∧
      loadConfig ⟨.ok (goStr "/home/u"),
        fun p => if p = goStr "/home/u/.config/shelly/config.json" then
          .content (goStr "\x7b\"api_key\": 5\x7d") else .absent,
        fun _ => none, fun _ => none, fun _ => goStr "type error"⟩ =
        .error (goStr "parsing config file: " ++ goStr "type error") :=
  ⟨rfl,
    (loadConfig_errors ⟨.ok (goStr "/home/u"),
        fun p => if p = goStr "/home/u/.config/shelly/config.json" then
          .content (goStr "\x7b\"api_key\": 5\x7d") else .absent,
        fun _ => none, fun _ => none, fun _ => goStr "type error"⟩ (goStr "/home/u") rfl).2.1
      (goStr "\x7b\"api_key\": 5\x7d") (.UnmarshalTypeError (goStr "number")) (by decide)
      (by decide)⟩

theorem cutLine_append (l rest : GoString) (h : 10 ∉ l) :
    cutLine (l ++ 0x0A :: rest) = some (l, rest) := by
  induction l with
  | nil => simp [cutLine]
  | cons a as ih =>
    have ha : ¬ a = 0x0A := fun e => h (by rw [e]; exact List.mem_cons_self _ _)
    simp only [List.cons_append, cutLine, ha, if_false, List.append_eq,
      ih (fun hm => h (List.mem_cons_of_mem _ hm))]

theorem cutLine_none (l : GoString) (h : 10 ∉ l) : cutLine l = none := by
  induction l with
  | nil => rfl
  | cons a as ih =>
    have ha : ¬ a = 0x0A := fun e => h (by rw [e]; exact List.mem_cons_self _ _)
    simp only [cutLine, ha, if_false, ih (fun hm => h (List.mem_cons_of_mem _ hm))]

theorem Join_cons_cons (a b : GoString) (rest : List GoString) (sep : GoString) :
    Join (a :: b :: rest) sep = a ++ sep ++ Join (b :: rest) sep := by
  simp [Join]

theorem scanLines_Join (lines : List GoString) (last tail : GoString) (fuel : Nat)
    (h : ∀ l ∈ lines ++ [last], 10 ∉ l ∧ l.getLast? ≠ some 0x0D ∧ l.length < MaxScanTokenSize)
    (hlast : last ≠ []) (ht : tail = [] ∨ tail = [0x0A])
    (hfuel : (Join (lines ++ [last]) [0x0A] ++ tail).length ≤ fuel) :
    scanLines fuel (Join (lines ++ [last]) [0x0A] ++ tail) = lines ++ [last] := by
  induction lines generalizing fuel with
  | nil =>
    obtain ⟨h1, h2, h3⟩ := h last (by simp)
    simp only [List.nil_append, Join] at hfuel ⊢
    cases fuel with
    | zero =>
      have : last = [] := List.length_eq_zero.mp (by
        simp only [List.length_append] at hfuel; omega)
      exact absurd this hlast
    | succ n =>
      rcases ht with rfl | rfl
      · simp only [List.append_nil, scanLines, hlast, if_false, cutLine_none last h1, h3,
          if_true, dropCR, h2]
      · have hne : last ++ [0x0A] ≠ [] := by simp
        have hs : scanLines n [] = [] := by cases n <;> simp [scanLines]
        simp only [scanLines, hne, if_false, cutLine_append last [] h1, h3, if_true, dropCR,
          h2, hs]
  | cons l ls ih =>
    obtain ⟨h1, h2, h3⟩ := h l (by simp)
    have hrest : ∀ x ∈ ls ++ [last], 10 ∉ x ∧ x.getLast? ≠ some 0x0D ∧
        x.length < MaxScanTokenSize := fun x hx => h x (by simp at hx ⊢; tauto)
    obtain ⟨y, ys, hy⟩ : ∃ y ys, ls ++ [last] = y :: ys := by
      cases ls with
      | nil => exact ⟨last, [], rfl⟩
      | cons a as => exact ⟨a, as ++ [last], rfl⟩
    have hj : Join (l :: ls ++ [last]) [0x0A] ++ tail =
        l ++ 0x0A :: (Join (ls ++ [last]) [0x0A] ++ tail) := by
      rw [List.cons_append, hy, Join_cons_cons]
      simp
    rw [hj] at hfuel ⊢
    cases fuel with
    | zero => simp at hfuel
    | succ n =>
      have hne : l ++ 0x0A :: (Join (ls ++ [last]) [0x0A] ++ tail) ≠ [] := by simp
      simp only [scanLines, hne, if_false, cutLine_append l _ h1, h3, if_true, dropCR, h2]
      rw [ih n hrest (by simp only [List.length_append, List.length_cons] at hfuel ⊢; omega)]
      rfl

/-- For piped input made of lines that hold no newline, do not end in a
carriage return and are shorter than 64 KiB, the last one not empty, the text
that goes into the prompt is the lines joined with a newline, with or without
a newline after the last line. -/
theorem pipedInput_lines (lines : List GoString) (last : GoString)
    (h : ∀ l ∈ lines ++ [last], 10 ∉ l ∧ l.getLast? ≠ some 0x0D ∧ l.length < MaxScanTokenSize)
    (hlast : last ≠ []) :
    pipedInput false (Join (lines ++ [last]) (goStr "\n")) = Join (lines ++ [last]) (goStr "\n") ∧
      pipedInput false (Join (lines ++ [last]) (goStr "\n") ++ goStr "\n") =
        Join (lines ++ [last]) (goStr "\n") := by
  have hn : goStr "\n" = [0x0A] := by decide
  constructor
  · have := scanLines_Join lines last [] _ h hlast (Or.inl rfl) (le_refl _)
    simp only [List.append_nil] at this
    simp only [pipedInput, if_true, hn, this]
  · simp only [pipedInput, if_true, hn,
      scanLines_Join lines last [0x0A] _ h hlast (Or.inr rfl) (le_refl _)]

end Shelly
